import Mathlib

/-!
Verification of the xero-cli generic invocation core against its
natural-language specification.

The development shallowly embeds the TypeScript sources:

* `src/invoke.ts` (current revision, with policy gate, interactive
  approval and audit log): API alias resolution, tenant resolution,
  manifest lookup, `--name=value` token parsing, type-directed parameter
  parsing, positional argument construction, the per-method policy gate,
  and the `invokeXeroMethod` driver.
* `src/auth.ts`: the encrypted credential store (serialize / decrypt)
  and client-credential resolution.

Effectful operations (file probes/reads, credential resolution, the
remote SDK call, audit appends) are made explicit: functions return a
result together with a list of `Eff` events, and ambient process state
(environment variables, file system, terminal, randomness, remote
responses) is passed in as explicit values.  JavaScript semantics that
cannot be reproduced exactly (IEEE-754 `Number`, `Date` parsing,
`JSON.parse` of arbitrary text) are abstracted as oracle functions
carried in a `JsSem` record; AES-256-GCM and scrypt are idealized in the
credential-store section (documented there).
-/

/-- Environment variables read by the embedded code.  `none` models an
unset variable, `some s` a variable set to the string `s` (possibly
empty). -/
structure Env where
  XERO_TENANT_ID_DEFAULT : Option String := none
  XERO_CLIENT_ID : Option String := none
  XERO_CLIENT_SECRET : Option String := none
  XERO_AUDIT_LOG_PATH : Option String := none
  XERO_AUDIT_LOG_FULL : Option String := none
  XDG_CONFIG_HOME : Option String := none
  HOME : Option String := none

/-- JavaScript `a || b` restricted to `string | undefined` values: the
left operand wins unless it is `undefined` or the empty string (the only
falsy strings). -/
def jsOrFalsy (a b : Option String) : Option String :=
  match a with
  | some s => if s = "" then b else some s
  | none => b

/-- JavaScript `String.prototype.trim` (whitespace restricted to the
ASCII class `Char.isWhitespace`; the sources only ever compare against
ASCII data).  Implemented by structural recursion on the character
list so that concrete instances evaluate. -/
def jsTrim (s : String) : String :=
  ⟨((s.data.dropWhile Char.isWhitespace).reverse.dropWhile Char.isWhitespace).reverse⟩

/-- JavaScript `String.prototype.toLowerCase` (simple per-character
lowering; the sources only compare against ASCII literals). -/
def jsToLower (s : String) : String := ⟨s.data.map Char.toLower⟩

/-- JavaScript `String.prototype.startsWith`. -/
def jsStartsWith (s pre : String) : Bool := pre.data.isPrefixOf s.data

/-- JavaScript `String.prototype.endsWith`. -/
def jsEndsWith (s suf : String) : Bool := suf.data.isSuffixOf s.data

/-- Prepend a character to the first piece of a split result. -/
def consHead (c : Char) : List (List Char) → List (List Char)
  | [] => [[c]]
  | h :: t => (c :: h) :: t

/-- Split a character list at every occurrence of a single-character
separator. -/
def splitOnCharAux (sep : Char) : List Char → List (List Char)
  | [] => [[]]
  | c :: rest =>
    if c = sep then [] :: splitOnCharAux sep rest
    else consHead c (splitOnCharAux sep rest)

/-- JavaScript `String.prototype.split` with a one-character
separator. -/
def jsSplitOnChar (sep : Char) (s : String) : List String :=
  (splitOnCharAux sep s.data).map (⟨·⟩)

/-- Split a character list at every occurrence of the three-character
separator `" | "` (leftmost-first, non-overlapping, as JS `split`
does). -/
def splitOnBarAux : List Char → List (List Char)
  | ' ' :: '|' :: ' ' :: rest => [] :: splitOnBarAux rest
  | c :: rest => consHead c (splitOnBarAux rest)
  | [] => [[]]

/-- JavaScript `String.prototype.split(" | ")`. -/
def jsSplitOnBar (s : String) : List String := (splitOnBarAux s.data).map (⟨·⟩)

/-- JavaScript `String.prototype.slice(n)` for a non-negative start. -/
def jsDrop (s : String) (n : Nat) : String := ⟨s.data.drop n⟩

/-- Drop `n` characters from the end (used for the `slice(0, -1)` part
of the quoted-literal match). -/
def jsDropRight (s : String) (n : Nat) : String :=
  ⟨(s.data.reverse.drop n).reverse⟩

/-- JavaScript `Array.prototype.join` on strings. -/
def jsIntercalate (sep : String) (parts : List String) : String :=
  ⟨List.intercalate sep.data (parts.map String.data)⟩

/-- JavaScript `String.prototype.length` (code units ≈ characters on
the ASCII data involved). -/
def jsLength (s : String) : Nat := s.data.length

/-- `src/invoke.ts` `resolveTenantId`: explicit flag value (trimmed),
else the `XERO_TENANT_ID_DEFAULT` environment default (trimmed), else an
explicit missing-tenant-id error.  Mirrors
`explicitTenantId?.trim() || env.XERO_TENANT_ID_DEFAULT?.trim()`
followed by the `if (!tenantId) throw` falsiness check. -/
def resolveTenantId (env : Env) (explicitTenantId : Option String) :
    Except String String :=
  let tenantId :=
    jsOrFalsy (explicitTenantId.map jsTrim)
      (env.XERO_TENANT_ID_DEFAULT.map jsTrim)
  match tenantId with
  | some s =>
      if s = "" then
        .error "Missing tenant ID. Set --tenant-id or XERO_TENANT_ID_DEFAULT."
      else .ok s
  | none =>
      .error "Missing tenant ID. Set --tenant-id or XERO_TENANT_ID_DEFAULT."

/-- `src/invoke.ts` `ApiMapping` (the `alias` field is renamed
`aliasName`; `alias` is a Lean keyword).  `property` is the internal
API identifier (`ApiProperty`), kept as a string. -/
structure ApiMapping where
  aliasName : String
  property : String
  requiresTenantId : Bool
deriving DecidableEq, Repr

/-- `src/invoke.ts` `API_MAPPINGS` table, verbatim. -/
def API_MAPPINGS : List ApiMapping :=
  [ ⟨"accounting", "accountingApi", true⟩,
    ⟨"asset", "assetApi", true⟩,
    ⟨"files", "filesApi", true⟩,
    ⟨"project", "projectApi", true⟩,
    ⟨"payroll-au", "payrollAUApi", true⟩,
    ⟨"payroll-nz", "payrollNZApi", true⟩,
    ⟨"payroll-uk", "payrollUKApi", true⟩,
    ⟨"bankfeeds", "bankFeedsApi", true⟩,
    ⟨"appstore", "appStoreApi", false⟩,
    ⟨"finance", "financeApi", true⟩ ]

/-- `src/invoke.ts` `resolveApiMapping`: trim and lowercase the input,
then find the first mapping whose alias or lowercased internal property
name equals it. -/
def resolveApiMapping (input : String) : Option ApiMapping :=
  let normalized := jsToLower (jsTrim input)
  API_MAPPINGS.find? fun mapping =>
    mapping.aliasName == normalized || jsToLower mapping.property == normalized

/-- `src/invoke.ts` `ManifestParam`. -/
structure ManifestParam where
  name : String
  declaredType : String
  isOptional : Bool
  hasDefaultValue : Bool
  isRequired : Bool
deriving DecidableEq, Repr

/-- `src/invoke.ts` `ManifestMethod`. -/
structure ManifestMethod where
  name : String
  signatureFound : Bool
  params : List ManifestParam
deriving DecidableEq, Repr

/-- `src/invoke.ts` `ManifestApi`. -/
structure ManifestApi where
  name : String
  methods : List ManifestMethod
deriving DecidableEq, Repr

/-- `src/invoke.ts` `XeroApiManifest` (the parsed manifest file; loading
and caching are I/O, so the manifest is passed in explicitly). -/
structure XeroApiManifest where
  schemaVersion : Nat
  apis : List ManifestApi
deriving DecidableEq, Repr

/-- `src/invoke.ts` `resolveManifestMethod` (minus the cached file
read, which `loadManifest` performs; the parsed manifest is an explicit
argument here). -/
def resolveManifestMethod (manifest : XeroApiManifest)
    (apiProperty methodName : String) : Option ManifestMethod :=
  match manifest.apis.find? (fun item => item.name == apiProperty) with
  | none => none
  | some api => api.methods.find? (fun item => item.name == methodName)

/-- `src/invoke.ts` `MethodPolicy`. -/
inductive MethodPolicy where
  | allow
  | ask
  | block
deriving DecidableEq, Repr

/-- One audit event, as assembled by `invokeXeroMethod` (`auditBase`
plus the success/error completion fields).  The wall-clock fields `ts`
and `durationMs` are not modeled.  `request = none` models the
`undefined` field that `JSON.stringify` omits in default (non-full)
audit mode; in full mode it holds the raw parameter tokens and the
uploaded-file parameter names.  `policy = none` models the `"unknown"`
placeholder. -/
structure AuditRecord where
  mode : String
  api : String
  method : String
  tenantId : Option String
  rawParamCount : Nat
  uploadedFileCount : Nat
  request : Option (List String × List String)
  policy : Option MethodPolicy
  status : String
  responseStatus : Option (Option Nat)
  error : Option String
deriving DecidableEq, Repr

/-- Observable side effects of the embedded code, in execution order.
`fileProbe` is an `existsSync`/`statSync` call on a parameter-supplied
path, `fileRead` a `readFileSync` of such a path, `policyRead` the
policy-file probe/read, `manifestRead` the manifest file read,
`credentialResolve` the credential resolution performed by
`createAuthenticatedClient` (the only place credential decryption can
happen), `remoteCall` the outbound SDK call, `auditAppend` a successful
`appendFileSync` on the audit log. -/
inductive Eff where
  | policyRead
  | manifestRead
  | fileProbe (path : String)
  | fileRead (path : String)
  | credentialResolve
  | remoteCall
  | auditAppend (rec : AuditRecord)
deriving DecidableEq, Repr

/-- Oracles for JavaScript semantics that are not reproduced
structurally: `numberFinite raw` is `Number.isFinite(Number(raw))`,
`dateValid raw` is `!Number.isNaN(new Date(raw).getTime())`, and
`jsonParse text` is `JSON.parse(text)` (`none` on a syntax error, the
parsed value abstracted as a canonical string otherwise). -/
structure JsSem where
  numberFinite : String → Bool
  dateValid : String → Bool
  jsonParse : String → Option String

/-- A file-system entry: `isFile` is `statSync(path).isFile()`,
`contents` the bytes `readFileSync` returns.  The file system itself is
a partial map `String → Option FileEntry` (`none` = `existsSync`
false). -/
structure FileEntry where
  isFile : Bool
  contents : String
deriving DecidableEq, Repr

/-- Typed values produced by `parseValueByType`.  File-backed and
uploaded binary payloads keep their source (path / base64 text); JS
numbers, dates and parsed JSON are kept symbolically (see `JsSem`). -/
inductive ArgVal where
  | str (s : String)
  | num (raw : String)
  | bool (b : Bool)
  | date (raw : String)
  | strArray (items : List String)
  | bytesUpload (base64 : String)
  | bytesFile (path : String)
  | unionLit (s : String)
  | json (canonical : String)
deriving DecidableEq, Repr

/-- `src/invoke.ts` `BINARY_FILE_PARAM_TYPE`. -/
def BINARY_FILE_PARAM_TYPE : String := "fs.ReadStream | Readable | Buffer"

/-- Loop of `parseRawNamedParams`: checks the `--name=value` shape,
splits at the first `=`, trims the name, rejects duplicates, and keeps
insertion order (JS `Map` iteration order). -/
def parseRawNamedParamsLoop (tokens : List String)
    (parsed : List (String × String)) :
    Except String (List (String × String)) :=
  match tokens with
  | [] => .ok parsed
  | token :: rest =>
    if !jsStartsWith token "--" then
      .error
        s!"Invalid invoke argument \"{token}\". Use --<param-name>=<param-value> after \"--\"."
    else
      let pair := jsDrop token 2
      match jsSplitOnChar '=' pair with
      | [] => .error "unreachable: splitOn is never empty"
      | [_] =>
        .error s!"Invalid invoke argument \"{token}\". Use --<param-name>=<param-value>."
      | first :: restParts =>
        if first = "" then
          .error s!"Invalid invoke argument \"{token}\". Use --<param-name>=<param-value>."
        else
          let name := jsTrim first
          let value := jsIntercalate "=" restParts
          if (parsed.lookup name).isSome then
            .error s!"Duplicate parameter \"--{name}\" in invoke arguments."
          else
            parseRawNamedParamsLoop rest (parsed ++ [(name, value)])

/-- `src/invoke.ts` `parseRawNamedParams`.  The `indexOf("=") <= 0`
check corresponds to the `[_]` (no separator) and `first = ""`
(separator at index 0) cases of the loop. -/
def parseRawNamedParams (rawParams : List String) :
    Except String (List (String × String)) :=
  parseRawNamedParamsLoop rawParams []

/-- The ASCII apostrophe used by the string-literal-union regex. -/
def singleQuote : String := String.singleton (Char.ofNat 39)

/-- One part of a union type matched against `/^'(.*)'$/` (the embedded
check accepts any characters between the quotes; the JS `.` excludes
line terminators, which cannot occur in declared types). -/
def parseQuotedLiteral (part : String) : Option String :=
  if jsLength part ≥ 2 && jsStartsWith part singleQuote && jsEndsWith part singleQuote
  then some (jsDropRight (jsDrop part 1) 1)
  else none

/-- `src/invoke.ts` `parseStringLiteralUnionValues`. -/
def parseStringLiteralUnionValues (declaredType : String) :
    Option (List String) :=
  let parts := (jsSplitOnBar declaredType).map jsTrim
  if parts.length < 2 then none
  else parts.mapM parseQuotedLiteral

/-- `src/invoke.ts` `parseJsonModelValue`: structured-data fallback.
Returns the parse outcome together with the file probes/reads
performed. -/
def parseJsonModelValue (sem : JsSem) (fs : String → Option FileEntry)
    (rawValue name declaredType : String) :
    Except String ArgVal × List Eff :=
  let value := jsTrim rawValue
  if value = "" then
    (.error s!"Parameter \"{name}\" ({declaredType}) expects JSON input or a .json file path.",
      [])
  else if jsEndsWith (jsToLower value) ".json" then
    match fs value with
    | none =>
      (.error s!"Parameter \"{name}\" JSON file does not exist: \"{value}\".",
        [.fileProbe value])
    | some entry =>
      if !entry.isFile then
        (.error s!"Parameter \"{name}\" expects a JSON file path, got: \"{value}\".",
          [.fileProbe value, .fileProbe value])
      else
        match sem.jsonParse entry.contents with
        | some j =>
          (.ok (.json j), [.fileProbe value, .fileProbe value, .fileRead value])
        | none =>
          (.error s!"Parameter \"{name}\" JSON file is invalid: \"{value}\".",
            [.fileProbe value, .fileProbe value, .fileRead value])
  else
    match sem.jsonParse value with
    | some j => (.ok (.json j), [])
    | none =>
      (.error s!"Parameter \"{name}\" ({declaredType}) expects valid JSON or a .json file path.",
        [])

/-- The file-path arm of the binary-parameter branch of
`parseValueByType` (taken when no uploaded payload is active). -/
def parseBinaryFilePath (fs : String → Option FileEntry)
    (rawValue name : String) : Except String ArgVal × List Eff :=
  let filePath := jsTrim rawValue
  if filePath = "" then
    (.error s!"Parameter \"{name}\" expects a file path for type \"{BINARY_FILE_PARAM_TYPE}\".",
      [])
  else
    match fs filePath with
    | none =>
      (.error s!"Parameter \"{name}\" file does not exist: \"{filePath}\".",
        [.fileProbe filePath])
    | some entry =>
      if !entry.isFile then
        (.error s!"Parameter \"{name}\" expects a file path, got: \"{filePath}\".",
          [.fileProbe filePath, .fileProbe filePath])
      else
        (.ok (.bytesFile filePath),
          [.fileProbe filePath, .fileProbe filePath, .fileRead filePath])

/-- `src/invoke.ts` `parseValueByType`: type-dispatch in source order
(`string`, `number`, `boolean`, `Date`, `Array<string>`, the binary
file type, string-literal unions, JSON-model fallback).  An uploaded
payload that is the empty string is falsy in JS and falls through to
the file-path arm. -/
def parseValueByType (sem : JsSem) (fs : String → Option FileEntry)
    (declaredType rawValue name : String) (uploadedFile : Option String) :
    Except String ArgVal × List Eff :=
  if declaredType = "string" then
    (.ok (.str rawValue), [])
  else if declaredType = "number" then
    if jsTrim rawValue = "" then
      (.error s!"Parameter \"{name}\" expects a number but received an empty value.", [])
    else if sem.numberFinite rawValue then
      (.ok (.num rawValue), [])
    else
      (.error s!"Parameter \"{name}\" expects a number but received \"{rawValue}\".", [])
  else if declaredType = "boolean" then
    let normalized := jsToLower (jsTrim rawValue)
    if normalized = "true" then (.ok (.bool true), [])
    else if normalized = "false" then (.ok (.bool false), [])
    else
      (.error s!"Parameter \"{name}\" expects a boolean (\"true\" or \"false\") but received \"{rawValue}\".",
        [])
  else if declaredType = "Date" then
    if jsTrim rawValue = "" then
      (.error s!"Parameter \"{name}\" expects a date but received an empty value.", [])
    else if sem.dateValid rawValue then
      (.ok (.date rawValue), [])
    else
      (.error s!"Parameter \"{name}\" expects a date but received \"{rawValue}\". Use ISO format, e.g. 2026-01-01T00:00:00Z.",
        [])
  else if declaredType = "Array<string>" then
    let items := (jsSplitOnChar ',' rawValue).map jsTrim
    if items.contains "" then
      (.error s!"Parameter \"{name}\" expects a non-empty string array element.", [])
    else if items = [] then
      (.error s!"Parameter \"{name}\" expects at least one string value.", [])
    else
      (.ok (.strArray items), [])
  else if declaredType = BINARY_FILE_PARAM_TYPE then
    match uploadedFile with
    | some uploaded =>
      if uploaded = "" then parseBinaryFilePath fs rawValue name
      else (.ok (.bytesUpload uploaded), [])
    | none => parseBinaryFilePath fs rawValue name
  else if (jsSplitOnBar declaredType).length ≥ 2 then
    match parseStringLiteralUnionValues declaredType with
    | none =>
      (.error s!"Parameter \"{name}\" has unsupported union type \"{declaredType}\".", [])
    | some unionValues =>
      let value := jsTrim rawValue
      if unionValues.contains value then (.ok (.unionLit value), [])
      else
        let joined := String.intercalate ", " unionValues
        (.error s!"Parameter \"{name}\" expects one of [{joined}] but received \"{rawValue}\".",
          [])
  else
    parseJsonModelValue sem fs rawValue name declaredType

/-- `src/invoke.ts` `buildInvokeArgs`, first loop: every provided name
must not be the reserved `xeroTenantId` and must occur in the method's
signature. -/
def checkProvidedNames (methodName : String) (sigNames : List String) :
    List (String × String) → Except String Unit
  | [] => .ok ()
  | (name, _) :: rest =>
    if name = "xeroTenantId" then
      .error "Do not pass \"--xeroTenantId\". Use \"--tenant-id\" (before \"--\") or XERO_TENANT_ID_DEFAULT."
    else if !sigNames.contains name then
      .error s!"Unknown parameter \"--{name}\" for method \"{methodName}\"."
    else checkProvidedNames methodName sigNames rest

/-- The missing-required-parameter error text of `buildInvokeArgs`. -/
def missingRequiredParamMessage (param : ManifestParam) : String :=
  let pname := param.name
  let ptype := param.declaredType
  s!"Missing required parameter \"--{pname}=...\" ({ptype})."

/-- Prepend a slot to a successfully built suffix of the argument
vector. -/
def consArgSlot (slot : Option ArgVal)
    (rest : Except String (List (Option ArgVal))) :
    Except String (List (Option ArgVal)) :=
  match rest with
  | .error e => .error e
  | .ok slots => .ok (slot :: slots)

/-- `src/invoke.ts` `buildInvokeArgs`, second loop, one declared
parameter at a time in signature order: the `xeroTenantId` slot is
injected from the resolved tenant id (possibly `undefined`); an absent
required parameter fails; an absent optional parameter leaves its slot
`undefined`; a provided value goes through `parseValueByType`. -/
def buildArgsLoop (sem : JsSem) (fs : String → Option FileEntry)
    (tenantId : Option String) (uploadedFiles : Option (List (String × String)))
    (providedParams : List (String × String)) :
    List ManifestParam → Except String (List (Option ArgVal)) × List Eff
  | [] => (.ok [], [])
  | param :: rest =>
    if param.name = "xeroTenantId" then
      let (r, effs) :=
        buildArgsLoop sem fs tenantId uploadedFiles providedParams rest
      (consArgSlot (tenantId.map ArgVal.str) r, effs)
    else
      match providedParams.lookup param.name with
      | none =>
        if param.isRequired then
          (.error (missingRequiredParamMessage param), [])
        else
          let (r, effs) :=
            buildArgsLoop sem fs tenantId uploadedFiles providedParams rest
          (consArgSlot none r, effs)
      | some providedValue =>
        let (pv, effs₁) :=
          parseValueByType sem fs param.declaredType providedValue param.name
            (uploadedFiles.bind (·.lookup param.name))
        match pv with
        | .error e => (.error e, effs₁)
        | .ok v =>
          let (r, effs₂) :=
            buildArgsLoop sem fs tenantId uploadedFiles providedParams rest
          (consArgSlot (some v) r, effs₁ ++ effs₂)

/-- The trailing `while (... === undefined) args.pop()` loop of
`buildInvokeArgs`. -/
def dropTrailingUndefined (args : List (Option ArgVal)) :
    List (Option ArgVal) :=
  (args.reverse.dropWhile Option.isNone).reverse

/-- `src/invoke.ts` `buildInvokeArgs`. -/
def buildInvokeArgs (sem : JsSem) (fs : String → Option FileEntry)
    (manifestMethod : ManifestMethod) (tenantId : Option String)
    (rawParams : List String)
    (uploadedFiles : Option (List (String × String))) :
    Except String (List (Option ArgVal)) × List Eff :=
  match parseRawNamedParams rawParams with
  | .error e => (.error e, [])
  | .ok providedParams =>
    match
      checkProvidedNames manifestMethod.name
        (manifestMethod.params.map (·.name)) providedParams
    with
    | .error e => (.error e, [])
    | .ok _ =>
      let (r, effs) :=
        buildArgsLoop sem fs tenantId uploadedFiles providedParams
          manifestMethod.params
      match r with
      | .error e => (.error e, effs)
      | .ok args => (.ok (dropTrailingUndefined args), effs)

/-- The policy-file state the loader `resolvePolicyMethodsFromFile`
finds: no file at the resolved path (or no resolvable path at all), a
file that fails to parse or validate (the loader throws one of its
shape/value errors, abstracted as `message`), or a valid file with its
parsed and validated `methods` map. -/
inductive PolicySource where
  | noFile (policyPath : Option String)
  | badFile (policyPath : String) (message : String)
  | file (policyPath : String) (methods : List (String × MethodPolicy))

/-- The record `resolvePolicyMethodsFromFile` returns. -/
structure PolicyFileResolution where
  methods : List (String × MethodPolicy)
  policyPath : Option String
  policyFileExists : Bool
deriving Repr

/-- `src/invoke.ts` `resolvePolicyMethodsFromFile` over the
`PolicySource` abstraction: an absent file yields an empty `methods`
map with `policyFileExists = false`; an invalid file throws; a valid
file yields its entries. -/
def resolvePolicyMethodsFromFile :
    PolicySource → Except String PolicyFileResolution
  | .noFile policyPath => .ok ⟨[], policyPath, false⟩
  | .badFile _ message => .error message
  | .file policyPath methods => .ok ⟨methods, some policyPath, true⟩

/-- The record `resolveMethodPolicy` returns. -/
structure MethodPolicyResolution where
  policy : MethodPolicy
  hasEntry : Bool
  policyPath : Option String
deriving Repr

/-- `src/invoke.ts` `resolveMethodPolicy`: the bare method name is the
part after the last dot (`(methodKey.splitOn ".").getLastD methodKey`
equals the `includes(".") ? slice(lastIndexOf(".") + 1) : methodKey`
expression); the fallback is `allow` when no policy file exists, else
`allow` exactly for `get`-prefixed bare names and `block` otherwise; an
explicit entry is returned verbatim with `hasEntry = true`. -/
def resolveMethodPolicy (source : PolicySource) (methodKey : String) :
    Except String MethodPolicyResolution :=
  let methodName := (jsSplitOnChar '.' methodKey).getLastD methodKey
  match resolvePolicyMethodsFromFile source with
  | .error e => .error e
  | .ok policyFile =>
    let fallbackPolicy : MethodPolicy :=
      if !policyFile.policyFileExists then .allow
      else if jsStartsWith methodName "get" then .allow
      else .block
    match policyFile.methods.lookup methodKey with
    | none => .ok ⟨fallbackPolicy, false, policyFile.policyPath⟩
    | some methodPolicy => .ok ⟨methodPolicy, true, policyFile.policyPath⟩

/-- `src/invoke.ts` `InvokeInput`. -/
structure InvokeInput where
  api : String
  method : String
  tenantId : Option String := none
  rawParams : List String := []
  uploadedFiles : Option (List (String × String)) := none
  auditMode : Option String := none

/-- The raw value the external SDK call resolves with, as far as
`toPrintableResult` inspects it: whether it is an object carrying both
`response` and `body`, and the `response?.status ?? response?.statusCode`
number (if any).  Response bodies are not modeled. -/
structure RemoteResult where
  hasResponseBody : Bool
  responseStatus : Option Nat
deriving DecidableEq, Repr

/-- `src/invoke.ts` `InvokeResult` (the `body` field is not modeled;
`status` is `none` for JS `null`). -/
structure InvokeResult where
  status : Option Nat
deriving DecidableEq, Repr

/-- `src/invoke.ts` `toPrintableResult` restricted to the modeled
fields. -/
def toPrintableResult (result : RemoteResult) : InvokeResult :=
  if result.hasResponseBody then ⟨result.responseStatus⟩ else ⟨none⟩

/-- The return type of `resolveInvokeCall`. -/
structure ResolvedInvokeCall where
  mapping : ApiMapping
  args : List (Option ArgVal)

/-- `src/invoke.ts` `resolveInvokeCall`: alias lookup, tenant
resolution (only for tenant-requiring aliases), manifest lookup with
the `signatureFound` check, then `buildInvokeArgs`.  The
`.manifestRead` effect stands for the `loadManifest` file read. -/
def resolveInvokeCall (sem : JsSem) (fs : String → Option FileEntry)
    (manifest : XeroApiManifest) (input : InvokeInput) (env : Env) :
    Except String ResolvedInvokeCall × List Eff :=
  match resolveApiMapping input.api with
  | none =>
    let api := input.api
    (.error s!"Unknown API \"{api}\".", [])
  | some mapping =>
    let tenantStep : Except String (Option String) :=
      if mapping.requiresTenantId then
        (resolveTenantId env input.tenantId).map some
      else .ok none
    match tenantStep with
    | .error e => (.error e, [])
    | .ok tenantId =>
      match resolveManifestMethod manifest mapping.property input.method with
      | none =>
        let prop := mapping.property
        let meth := input.method
        (.error s!"No signature metadata for \"{prop}.{meth}\". Regenerate/expand resources/xero-api-manifest.json, or use a raw endpoint fallback when available.",
          [.manifestRead])
      | some manifestMethod =>
        if !manifestMethod.signatureFound then
          let prop := mapping.property
          let meth := input.method
          (.error s!"No signature metadata for \"{prop}.{meth}\". Regenerate/expand resources/xero-api-manifest.json, or use a raw endpoint fallback when available.",
            [.manifestRead])
        else
          let (r, effs) :=
            buildInvokeArgs sem fs manifestMethod tenantId input.rawParams
              input.uploadedFiles
          match r with
          | .error e => (.error e, .manifestRead :: effs)
          | .ok args => (.ok ⟨mapping, args⟩, .manifestRead :: effs)

/-- Ambient state an invocation runs against: the policy-file state,
the parsed manifest, the file system for parameter-supplied paths,
terminal interactivity, the operator's raw answer to an `ask` prompt,
the outcome of `createAuthenticatedClient` (credential resolution and
token acquisition, abstracted), availability of the per-API client
object and of the named method on it, the remote call outcome, and
whether an append on the audit sink would succeed. -/
structure World where
  sem : JsSem
  policy : PolicySource
  manifest : XeroApiManifest
  fs : String → Option FileEntry
  stdinIsTTY : Bool
  stdoutIsTTY : Bool
  askAnswer : String
  credentials : Except String Unit
  apiClientAvailable : Bool := true
  methodIsFunction : Bool := true
  remote : Except String RemoteResult
  auditSinkOk : Bool := true

/-- The configuration-guidance error `promptAskPolicyDecision` throws
when no interactive terminal is attached. -/
def approvalUnavailableMessage (methodKey : String) : String :=
  s!"Method \"{methodKey}\" requires approval but no interactive terminal is available. Set this method policy to allow or block for non-interactive runs."

/-- `src/invoke.ts` `promptAskPolicyDecision`: fails when either stream
is not a TTY; otherwise the trimmed, lowercased answer approves on
empty input, `y`, or `yes`.  The request-preview console output is
display-only and not modeled. -/
def promptAskPolicyDecision (w : World) (methodKey : String) :
    Except String Bool :=
  if !w.stdinIsTTY || !w.stdoutIsTTY then
    .error (approvalUnavailableMessage methodKey)
  else
    let answer := jsToLower (jsTrim w.askAnswer)
    .ok (answer = "" || answer = "y" || answer = "yes")

/-- `src/invoke.ts` `resolveConfigHome` (the invoke-module variant that
returns `undefined` instead of throwing). -/
def resolveConfigHome (env : Env) : Option String :=
  let xdg := (env.XDG_CONFIG_HOME.map jsTrim).getD ""
  if xdg ≠ "" then some xdg
  else
    let home := (env.HOME.map jsTrim).getD ""
    if home = "" then none
    else some (home ++ "/.config")

/-- The audit-log path `appendAuditLine` resolves:
`XERO_AUDIT_LOG_PATH` (trimmed, if non-empty) else
`<configHome>/xero-cli/audit.jsonl`, else none (in which case the
function returns without writing). -/
def resolveAuditLogPath (env : Env) : Option String :=
  let fromEnv := (env.XERO_AUDIT_LOG_PATH.map jsTrim).getD ""
  if fromEnv ≠ "" then some fromEnv
  else (resolveConfigHome env).map (fun configHome => configHome ++ "/xero-cli/audit.jsonl")

/-- `src/invoke.ts` `appendAuditLine`: best effort — writes one JSONL
line when a path resolves and the directory creation and append
succeed (`auditSinkOk`); any failure, including an unresolvable path,
is swallowed and produces no write. -/
def appendAuditLine (env : Env) (auditSinkOk : Bool) (event : AuditRecord) :
    List Eff :=
  match resolveAuditLogPath env with
  | none => []
  | some _ => if auditSinkOk then [.auditAppend event] else []

/-- The `XERO_AUDIT_LOG_FULL` toggle of `invokeXeroMethod`. -/
def fullAuditEnabled (env : Env) : Bool :=
  let v := jsToLower (jsTrim (env.XERO_AUDIT_LOG_FULL.getD ""))
  v = "1" || v = "true" || v = "yes"

/-- The uploaded-file parameter names (`Object.keys` order). -/
def uploadedFileNames (input : InvokeInput) : List String :=
  (input.uploadedFiles.getD []).map Prod.fst

/-- The `auditBase` record of `invokeXeroMethod` (completion fields
still unset). -/
def auditBase (env : Env) (input : InvokeInput) : AuditRecord :=
  { mode := input.auditMode.getD "direct"
    api := input.api
    method := input.method
    tenantId := input.tenantId
    rawParamCount := input.rawParams.length
    uploadedFileCount := (uploadedFileNames input).length
    request :=
      if fullAuditEnabled env then some (input.rawParams, uploadedFileNames input)
      else none
    policy := none
    status := ""
    responseStatus := none
    error := none }

/-- The tail of `invokeXeroMethod`'s `try` block once the policy gate
has passed: `resolveInvokeCall`, `createAuthenticatedClient`
(credential resolution), the per-API client and method availability
checks, and the remote call. -/
def invokeAfterGate (w : World) (input : InvokeInput) (env : Env) :
    Except String InvokeResult × List Eff :=
  let (resolved, effs) := resolveInvokeCall w.sem w.fs w.manifest input env
  match resolved with
  | .error e => (.error e, effs)
  | .ok r =>
    match w.credentials with
    | .error e => (.error e, effs ++ [.credentialResolve])
    | .ok _ =>
      if !w.apiClientAvailable then
        let aliasName := r.mapping.aliasName
        (.error s!"API client \"{aliasName}\" is not available.",
          effs ++ [.credentialResolve])
      else if !w.methodIsFunction then
        let meth := input.method
        let aliasName := r.mapping.aliasName
        (.error s!"Unknown method \"{meth}\" for API \"{aliasName}\".",
          effs ++ [.credentialResolve])
      else
        match w.remote with
        | .error e => (.error e, effs ++ [.credentialResolve, .remoteCall])
        | .ok result =>
          (.ok (toPrintableResult result),
            effs ++ [.credentialResolve, .remoteCall])

/-- The `try` block of `invokeXeroMethod` (without the audit appends):
alias lookup, policy gate, block/ask handling, then `invokeAfterGate`.
The middle component is the final value of the `policyForAudit`
variable (`none` = `"unknown"`). -/
def invokeBody (w : World) (input : InvokeInput) (env : Env) :
    Except String InvokeResult × Option MethodPolicy × List Eff :=
  match resolveApiMapping input.api with
  | none =>
    let api := input.api
    (.error s!"Unknown API \"{api}\".", none, [])
  | some mapping =>
    let methodKey := mapping.aliasName ++ "." ++ input.method
    match resolveMethodPolicy w.policy methodKey with
    | .error e => (.error e, none, [.policyRead])
    | .ok policy =>
      let pa := some policy.policy
      if policy.policy = .block then
        if !policy.hasEntry then
          match policy.policyPath with
          | some policyPath =>
            (.error s!"Method \"{methodKey}\" is blocked by default policy (method is not listed and does not start with \"get\"). Add it to \"{policyPath}\" and set allow/ask/block.",
              pa, [.policyRead])
          | none =>
            (.error s!"Method \"{methodKey}\" is blocked by default policy (method is not listed and does not start with \"get\"). Set HOME/XDG_CONFIG_HOME or XERO_POLICY_PATH, then add it and set allow/ask/block.",
              pa, [.policyRead])
        else
          (.error s!"Method \"{methodKey}\" is blocked by policy.", pa,
            [.policyRead])
      else if policy.policy = .ask then
        match promptAskPolicyDecision w methodKey with
        | .error e => (.error e, pa, [.policyRead])
        | .ok false =>
          (.error s!"Method \"{methodKey}\" was denied by user.", pa,
            [.policyRead])
        | .ok true =>
          let (r, effs) := invokeAfterGate w input env
          (r, pa, .policyRead :: effs)
      else
        let (r, effs) := invokeAfterGate w input env
        (r, pa, .policyRead :: effs)

/-- `src/invoke.ts` `invokeXeroMethod`: the `try` body followed by
exactly one `appendAuditLine` call — with the success completion fields
on the success path, with the error completion fields in the `catch`
(which then rethrows). -/
def invokeXeroMethod (w : World) (input : InvokeInput) (env : Env) :
    Except String InvokeResult × List Eff :=
  match invokeBody w input env with
  | (.ok printable, pa, effs) =>
    (.ok printable,
      effs ++ appendAuditLine env w.auditSinkOk
        { auditBase env input with
            policy := pa
            status := "success"
            responseStatus := some printable.status })
  | (.error e, pa, effs) =>
    (.error e,
      effs ++ appendAuditLine env w.auditSinkOk
        { auditBase env input with
            policy := pa
            status := "error"
            error := some e })

/-- `src/auth.ts` `trimNonEmpty`. -/
def trimNonEmpty (input : Option String) : Option String :=
  match input with
  | none => none
  | some s =>
    let value := jsTrim s
    if value ≠ "" then some value else none

/-- `src/auth.ts` `OAuthTokenSetInput`.  `expires_at`/`expires_in` are
epoch numbers (kept as `Int`; the IEEE-754 representation is not
modeled).  The `scope : string | string[]` union is kept as the raw
string form. -/
structure OAuthTokenSetInput where
  access_token : Option String := none
  refresh_token : Option String := none
  token_type : Option String := none
  expires_at : Option Int := none
  expires_in : Option Int := none
  scope : Option String := none
deriving DecidableEq, Repr

/-- `src/auth.ts` `StoredAuthState`: the tagged union of
`StoredClientCredentialsState` and `StoredOAuthState`. -/
inductive StoredAuthState where
  | client_credentials (clientId clientSecret savedAt : String)
  | oauth (clientId clientSecret redirectUri : String) (scopes : List String)
      (tokenSet : Option OAuthTokenSetInput) (savedAt : String)
deriving DecidableEq, Repr

/-- The `mode` discriminant string of a stored state. -/
def StoredAuthState.mode : StoredAuthState → String
  | .client_credentials .. => "client_credentials"
  | .oauth .. => "oauth"

/-- `src/auth.ts` `normalizeOAuthScopes`: trim each scope, drop empty
ones, fail on an empty result. -/
def normalizeOAuthScopes (raw : List String) : Except String (List String) :=
  let scopes := (raw.map jsTrim).filter (fun scope => jsLength scope > 0)
  if scopes.length = 0 then .error "OAuth scopes cannot be empty."
  else .ok scopes

/-- `src/auth.ts` `resolveOAuthTokenExpiryIso`, with the epoch value
kept instead of its ISO-8601 rendering (`new Date(x*1000).toISOString()`
is injective in `x`, so nothing is lost for the stated claims); the
`typeof === "number" && isFinite` guard is vacuous on a typed `Int`. -/
def resolveOAuthTokenExpiry (tokenSet : Option OAuthTokenSetInput) :
    Option Int :=
  match tokenSet with
  | none => none
  | some ts => ts.expires_at

/-- Idealized AES-256-GCM ciphertext-plus-auth-tag: `createCipheriv`
followed by `update`/`final`/`getAuthTag` is modeled as an opaque box
recording the key, the nonce and the plaintext.  The matching
`gcmDecrypt` rejects any other key (the real cipher's authentication
tag rejects a wrong key except with negligible probability), and
`JSON.stringify`/`JSON.parse` of the payload record cancel, so the box
carries the `StoredAuthState` itself. -/
structure GCMCipher where
  key : String
  iv : Nat
  payload : StoredAuthState
deriving DecidableEq, Repr

/-- Idealized GCM decryption: succeeds exactly when key and nonce match
those used at encryption, returning the original plaintext. -/
def gcmDecrypt (key : String) (iv : Nat) (cipher : GCMCipher) :
    Option StoredAuthState :=
  if cipher.key = key ∧ cipher.iv = iv then some cipher.payload else none

/-- `src/auth.ts` `EncryptedAuthFile`: the on-disk JSON envelope.
`salt` and `iv` stand for the base64-coded random bytes (base64
round-trips, so the raw values are kept); `cipher` bundles the
`ciphertext` and `tag` fields of the idealized AEAD. -/
structure EncryptedAuthFile where
  version : Nat
  kdf : String
  mode : String
  tokenExpiresAt : Option Int
  salt : Nat
  iv : Nat
  cipher : GCMCipher
deriving DecidableEq, Repr

/-- `src/auth.ts` `serializeEncryptedAuthFile`: derive a key from the
passphrase and the fresh `salt` via scrypt (`scryptSync`, passed in as
an abstract KDF), encrypt the JSON payload under the fresh nonce `iv`,
and assemble the envelope, extracting the plaintext token-expiry
metadata for the oauth variant. -/
def serializeEncryptedAuthFile (scryptSync : String → Nat → String)
    (salt iv : Nat) (payload : StoredAuthState) (keyringPassword : String) :
    EncryptedAuthFile :=
  let key := scryptSync keyringPassword salt
  { version := 1
    kdf := "scrypt"
    mode := payload.mode
    tokenExpiresAt :=
      match payload with
      | .oauth _ _ _ _ tokenSet _ => resolveOAuthTokenExpiry tokenSet
      | .client_credentials .. => none
    salt := salt
    iv := iv
    cipher := ⟨key, iv, payload⟩ }

/-- The single opaque decryption-failure message of
`decryptStoredAuthState`. -/
def decryptFailureMessage (filePath : String) : String :=
  s!"Failed to decrypt auth file \"{filePath}\"."

/-- `src/auth.ts` `decryptStoredAuthState`: derive the key, decrypt
(tag check included), then validate the payload — trimmed non-empty
`clientId`/`clientSecret` (plus `redirectUri` and normalized non-empty
scopes for oauth).  Every failure inside the `try` (wrong key, tampered
envelope, `payload_invalid`, scope normalization) is caught and
replaced by the one opaque decrypt error. -/
def decryptStoredAuthState (scryptSync : String → Nat → String)
    (encrypted : EncryptedAuthFile) (keyringPassword filePath : String) :
    Except String StoredAuthState :=
  let key := scryptSync keyringPassword encrypted.salt
  match gcmDecrypt key encrypted.iv encrypted.cipher with
  | none => .error (decryptFailureMessage filePath)
  | some parsed =>
    match parsed with
    | .client_credentials clientId clientSecret savedAt =>
      match trimNonEmpty (some clientId), trimNonEmpty (some clientSecret) with
      | some cid, some cs => .ok (.client_credentials cid cs savedAt)
      | _, _ => .error (decryptFailureMessage filePath)
    | .oauth clientId clientSecret redirectUri scopes tokenSet savedAt =>
      match trimNonEmpty (some clientId), trimNonEmpty (some clientSecret),
        trimNonEmpty (some redirectUri), normalizeOAuthScopes scopes with
      | some cid, some cs, some ru, .ok scs =>
        .ok (.oauth cid cs ru scs tokenSet savedAt)
      | _, _, _, _ => .error (decryptFailureMessage filePath)

/-- `src/auth.ts` `parseEncryptedAuthFile` on a structurally well-typed
envelope (the JSON shape/field-type checks are vacuous on the typed
record; the version/kdf/mode value checks remain). -/
def parseEncryptedAuthFile (value : EncryptedAuthFile) (filePath : String) :
    Except String EncryptedAuthFile :=
  if value.version ≠ 1 ∨ value.kdf ≠ "scrypt" then
    .error s!"Unsupported auth file format in \"{filePath}\"."
  else if value.mode ≠ "client_credentials" ∧ value.mode ≠ "oauth" then
    .error s!"Auth file \"{filePath}\" has unsupported mode."
  else .ok value

/-- `writeStoredAuthState` followed by `readStoredAuthState` on the
same file: serialize under `storePassword`, re-parse the envelope, and
decrypt under `loadPassword`. -/
def storeThenLoad (scryptSync : String → Nat → String) (salt iv : Nat)
    (payload : StoredAuthState) (storePassword loadPassword filePath : String) :
    Except String StoredAuthState :=
  let encrypted := serializeEncryptedAuthFile scryptSync salt iv payload storePassword
  match parseEncryptedAuthFile encrypted filePath with
  | .error e => .error e
  | .ok parsed => decryptStoredAuthState scryptSync parsed loadPassword filePath

/-- States whose fields survive the trim/normalize validation of
`decryptStoredAuthState` unchanged: exactly the states the store's own
write paths (`storeClientCredentials`, `storeOAuthConfig`,
`storeOAuthTokenSet`) can produce. -/
def StoredAuthState.wellFormed : StoredAuthState → Prop
  | .client_credentials clientId clientSecret _ =>
      jsTrim clientId = clientId ∧ clientId ≠ "" ∧
      jsTrim clientSecret = clientSecret ∧ clientSecret ≠ ""
  | .oauth clientId clientSecret redirectUri scopes _ _ =>
      jsTrim clientId = clientId ∧ clientId ≠ "" ∧
      jsTrim clientSecret = clientSecret ∧ clientSecret ≠ "" ∧
      jsTrim redirectUri = redirectUri ∧ redirectUri ≠ "" ∧
      scopes ≠ [] ∧ ∀ scope ∈ scopes, jsTrim scope = scope ∧ jsLength scope > 0

/-- `src/auth.ts` `BasicClientCredentials`. -/
structure BasicClientCredentials where
  clientId : String
  clientSecret : String
deriving DecidableEq, Repr

/-- `src/auth.ts` `resolveEnvClientCredentials`: `none` when neither
variable is set; the incomplete-credentials error when at least one is
set but either is unset, empty or whitespace-only. -/
def resolveEnvClientCredentials (env : Env) :
    Except String (Option BasicClientCredentials) :=
  let envProvided := env.XERO_CLIENT_ID.isSome || env.XERO_CLIENT_SECRET.isSome
  if !envProvided then .ok none
  else
    match trimNonEmpty env.XERO_CLIENT_ID, trimNonEmpty env.XERO_CLIENT_SECRET with
    | some clientId, some clientSecret => .ok (some ⟨clientId, clientSecret⟩)
    | _, _ =>
      .error "Incomplete client credentials in environment. Set both XERO_CLIENT_ID and XERO_CLIENT_SECRET."

/-- `src/auth.ts` `StoredAuthConfig` (what `resolveStoredAuthConfig`
returns after a successful decrypt). -/
inductive StoredAuthConfig where
  | client_credentials (clientId clientSecret : String)
  | oauth (clientId clientSecret redirectUri : String) (scopes : List String)
      (tokenSet : Option OAuthTokenSetInput)
deriving DecidableEq, Repr

/-- `src/auth.ts` `ClientCredentials` (`source` is `"env"` or 
`"file"`). -/
structure ClientCredentials where
  clientId : String
  clientSecret : String
  source : String
deriving DecidableEq, Repr

/-- `src/auth.ts` `resolveClientCredentials`.  `stored` is the outcome
of `resolveStoredAuthConfig` (a decrypt of the credential file, which
can itself fail); the `Bool` component records whether that file-backed
path was consulted at all. -/
def resolveClientCredentials (env : Env)
    (stored : Except String (Option StoredAuthConfig)) :
    Except String ClientCredentials × Bool :=
  match resolveEnvClientCredentials env with
  | .error e => (.error e, false)
  | .ok (some envCredentials) =>
    (.ok ⟨envCredentials.clientId, envCredentials.clientSecret, "env"⟩, false)
  | .ok none =>
    match stored with
    | .error e => (.error e, true)
    | .ok none =>
      (.error "Missing client credentials. Set XERO_CLIENT_ID/XERO_CLIENT_SECRET or run `xero auth login --mode client_credentials`.",
        true)
    | .ok (some storedAuth) =>
      match storedAuth with
      | .client_credentials clientId clientSecret =>
        (.ok ⟨clientId, clientSecret, "file"⟩, true)
      | .oauth .. =>
        (.error "Stored auth mode is \"oauth\". Stored file does not contain client_credentials.",
          true)

/-- Classifies the parameter-driven file-system effects (the
`existsSync`/`statSync`/`readFileSync` calls made while parsing
parameter values). -/
def Eff.isParamFile : Eff → Bool
  | .fileProbe _ => true
  | .fileRead _ => true
  | _ => false

/-- Classifies audit-append effects. -/
def Eff.isAuditAppend : Eff → Bool
  | .auditAppend _ => true
  | _ => false

/-- The policy gate let the invocation proceed: the method key resolved
to `allow`, or to `ask` and the interactive prompt returned an
approval. -/
def policyGatePassed (w : World) (methodKey : String) : Prop :=
  ∃ polRes, resolveMethodPolicy w.policy methodKey = .ok polRes ∧
    (polRes.policy = .allow ∨
      (polRes.policy = .ask ∧ promptAskPolicyDecision w methodKey = .ok true))

/-- The method's catalog entry exists with `signatureFound = true`. -/
def signatureOk (manifest : XeroApiManifest) (apiProperty methodName : String) : Prop :=
  ∃ mm, resolveManifestMethod manifest apiProperty methodName = some mm ∧
    mm.signatureFound = true

/-- Trivial concrete `JsSem` oracle used for concrete evaluations. -/
def sem0 : JsSem := ⟨fun _ => true, fun _ => true, fun s => some s⟩

/-- The empty file system (no parameter files exist). -/
def fs0 : String → Option FileEntry := fun _ => none

/-- An environment with every variable unset. -/
def env0 : Env := {}

/-- A minimal concrete world for concrete evaluations: no policy file,
empty manifest, empty file system, no terminal, credentials and a
200-status remote call available. -/
def world0 : World :=
  { sem := sem0
    policy := .noFile none
    manifest := ⟨1, []⟩
    fs := fs0
    stdinIsTTY := false
    stdoutIsTTY := false
    askAnswer := ""
    credentials := .ok ()
    remote := .ok ⟨true, some 200⟩ }

/-- A concrete collision-free KDF instance for witnesses (the key is
the passphrase itself; injective in the passphrase for every salt). -/
def scrypt0 : String → Nat → String := fun keyringPassword _ => keyringPassword

/-- A concrete well-formed stored state. -/
def stWit : StoredAuthState :=
  .client_credentials "id" "sec" "2026-01-01T00:00:00Z"

/-- A concrete manifest method with two required parameters (the
tenant slot and `name`) and two trailing optionals. -/
def mmWit : ManifestMethod :=
  ⟨"createAccount", true,
    [⟨"xeroTenantId", "string", false, false, true⟩,
     ⟨"name", "string", false, false, true⟩,
     ⟨"opt1", "string", true, false, false⟩,
     ⟨"opt2", "string", true, false, false⟩]⟩

/-- An environment with only `HOME` set (audit sink resolvable). -/
def envHome : Env := { HOME := some "/home/op" }

/-- A concrete invoke input naming an unmapped API. -/
def inpUnknownApi : InvokeInput := ⟨"nope", "m", none, [], none, none⟩

/-- A concrete invoke input for `accounting.createAccount`. -/
def inpCreate : InvokeInput := ⟨"accounting", "createAccount", some "T", [], none, none⟩

/-- The audit record the unknown-API invocation writes under
`envHome`. -/
def recUnknownApi : AuditRecord :=
  ⟨"direct", "nope", "m", none, 0, 0, none, none, "error", none,
    some "Unknown API \"nope\"."⟩

/-- `world0` with a policy file blocking `accounting.createAccount`. -/
def wBlock : World :=
  { world0 with policy := .file "/p/policy.json" [("accounting.createAccount", .block)] }

/-- `world0` with a policy file asking on `accounting.createAccount`
(and no interactive terminal attached). -/
def wAsk : World :=
  { world0 with policy := .file "/p/policy.json" [("accounting.createAccount", .ask)] }

/-- C1: Policy gate fallback — an explicit policy-file entry is
returned verbatim with `hasEntry = true`; with no policy file every
key decides `allow`; with a policy file but no entry the decision is
`allow` exactly when the bare method name (after the last dot) starts
with `get`, and `block` otherwise. -/
theorem resolveMethodPolicy_spec (source : PolicySource) (methodKey : String) :
    (∀ path methods p, source = .file path methods →
        methods.lookup methodKey = some p →
        resolveMethodPolicy source methodKey = .ok ⟨p, true, some path⟩) ∧
    (∀ path, source = .noFile path →
        resolveMethodPolicy source methodKey = .ok ⟨.allow, false, path⟩) ∧
    (∀ path methods, source = .file path methods →
        methods.lookup methodKey = none →
        resolveMethodPolicy source methodKey =
          .ok ⟨if jsStartsWith ((jsSplitOnChar '.' methodKey).getLastD methodKey) "get"
                then .allow else .block, false, some path⟩) := by
  refine ⟨?_, ?_, ?_⟩
  · intro path methods p hsrc hlook
    subst hsrc
    simp [resolveMethodPolicy, resolvePolicyMethodsFromFile, hlook]
  · intro path hsrc
    subst hsrc
    simp [resolveMethodPolicy, resolvePolicyMethodsFromFile]
  · intro path methods hsrc hlook
    subst hsrc
    simp [resolveMethodPolicy, resolvePolicyMethodsFromFile, hlook]

/-- Witness for C1 at a concrete policy file and key. -/
theorem resolveMethodPolicy_spec_witness :
    resolveMethodPolicy (.file "/p/policy.json" [("accounting.createAccount", .ask)])
        "accounting.createAccount" = .ok ⟨.ask, true, some "/p/policy.json"⟩ :=
  (resolveMethodPolicy_spec _ _).1 _ _ _ rfl (by decide)

/-- C4 (amended): for a `boolean`-typed parameter the parser accepts
exactly the strings whose whitespace-trimmed, lowercased form is
`"true"` or `"false"` — so matching is case-insensitive and
whitespace-tolerant, not case-sensitive — returning the corresponding
boolean, failing on every other input, and performing no side
effects. -/
theorem parseValueByType_boolean_normalized (sem : JsSem)
    (fs : String → Option FileEntry) (rawValue name : String)
    (uploadedFile : Option String) :
    parseValueByType sem fs "boolean" rawValue name uploadedFile =
      (if jsToLower (jsTrim rawValue) = "true" then (.ok (.bool true), [])
       else if jsToLower (jsTrim rawValue) = "false" then (.ok (.bool false), [])
       else
         (.error s!"Parameter \"{name}\" expects a boolean (\"true\" or \"false\") but received \"{rawValue}\".",
           [])) := rfl

/-- C4 counterexample: the claim says only the exact lowercase
`"true"`/`"false"` are accepted, yet `"TRUE"` parses successfully. -/
theorem parseValueByType_boolean_case_insensitive :
    (parseValueByType sem0 fs0 "boolean" "TRUE" "flag" none).1 = .ok (.bool true) := rfl

/-- C8: a whitespace-only (or empty) explicit tenant id is treated as
absent — resolution falls back to the environment default; the
missing-tenant-id error occurs exactly when both the explicit value and
the default are absent or whitespace-only; a successful resolution is
the (non-empty) trim of the explicit flag or of the default. -/
theorem resolveTenantId_whitespace_fallback (env : Env) (s : String)
    (explicit : Option String) (t : String) :
    (jsTrim s = "" → resolveTenantId env (some s) = resolveTenantId env none) ∧
    ((∃ e, resolveTenantId env explicit = .error e) ↔
      ((∀ x, explicit = some x → jsTrim x = "") ∧
       (∀ d, env.XERO_TENANT_ID_DEFAULT = some d → jsTrim d = ""))) ∧
    (resolveTenantId env explicit = .ok t →
      t ≠ "" ∧ ((∃ x, explicit = some x ∧ t = jsTrim x) ∨
        (∃ d, env.XERO_TENANT_ID_DEFAULT = some d ∧ t = jsTrim d))) := by
  refine ⟨?_, ?_, ?_⟩
  · intro h
    simp [resolveTenantId, jsOrFalsy, h]
  · rcases explicit with _ | x
    · rcases hd : env.XERO_TENANT_ID_DEFAULT with _ | d
      · simp [resolveTenantId, jsOrFalsy, hd]
      · by_cases hdd : jsTrim d = "" <;> simp [resolveTenantId, jsOrFalsy, hd, hdd]
    · rcases hd : env.XERO_TENANT_ID_DEFAULT with _ | d
      · by_cases hx : jsTrim x = "" <;> simp [resolveTenantId, jsOrFalsy, hd, hx]
      · by_cases hx : jsTrim x = "" <;> by_cases hdd : jsTrim d = "" <;>
          simp [resolveTenantId, jsOrFalsy, hd, hx, hdd]
  · rcases explicit with _ | x
    · rcases hd : env.XERO_TENANT_ID_DEFAULT with _ | d
      · simp [resolveTenantId, jsOrFalsy, hd]
      · by_cases hdd : jsTrim d = "" <;> simp [resolveTenantId, jsOrFalsy, hd, hdd]
        rintro rfl
        simp [hdd]
    · rcases hd : env.XERO_TENANT_ID_DEFAULT with _ | d
      · by_cases hx : jsTrim x = "" <;> simp [resolveTenantId, jsOrFalsy, hd, hx]
        rintro rfl
        simp [hx]
      · by_cases hx : jsTrim x = "" <;> by_cases hdd : jsTrim d = "" <;>
          simp [resolveTenantId, jsOrFalsy, hd, hx, hdd] <;>
          rintro rfl <;> simp [hx, hdd]

/-- Witness for C8 at a whitespace explicit tenant id. -/
theorem resolveTenantId_whitespace_fallback_witness :
    resolveTenantId ⟨some "envT", none, none, none, none, none, none⟩ (some "   ") =
      resolveTenantId ⟨some "envT", none, none, none, none, none, none⟩ none :=
  (resolveTenantId_whitespace_fallback _ "   " none "").1 (by decide)

/-- C10: API resolution accepts, after trimming and lowercasing, both
the user-facing alias and the internal API identifier
(`"AccountingApi"` resolves like `"accounting"`); an input matching
neither makes the invocation fail with the unknown-API error. -/
theorem resolveApiMapping_accepts_alias_or_property (input : String) :
    resolveApiMapping "AccountingApi" = resolveApiMapping "accounting" ∧
    ((resolveApiMapping input).isSome ↔
      ∃ mapping ∈ API_MAPPINGS,
        mapping.aliasName = jsToLower (jsTrim input) ∨
        jsToLower mapping.property = jsToLower (jsTrim input)) ∧
    (resolveApiMapping input = none →
      ∀ (w : World) (env : Env) (meth : String) (tid : Option String)
        (rp : List String) (uf : Option (List (String × String))) (am : Option String),
        (invokeXeroMethod w ⟨input, meth, tid, rp, uf, am⟩ env).1 =
          .error s!"Unknown API \"{input}\".") := by
  refine ⟨rfl, ?_, ?_⟩
  · simp [resolveApiMapping, List.find?_isSome]
  · intro h w env meth tid rp uf am
    simp [invokeXeroMethod, invokeBody, h]

/-- Witness for C10 at the unmapped input `"bogus"`. -/
theorem resolveApiMapping_accepts_alias_or_property_witness :
    (invokeXeroMethod world0 ⟨"bogus", "m", none, [], none, none⟩ env0).1 =
      .error "Unknown API \"bogus\"." :=
  (resolveApiMapping_accepts_alias_or_property "bogus").2.2 (by decide)
    world0 env0 "m" none [] none none

/-- A `trimNonEmpty` success implies the variable was set at all. -/
theorem trimNonEmpty_some_isSome {o : Option String} {x : String}
    (h : trimNonEmpty o = some x) : o.isSome = true := by
  cases o <;> simp [trimNonEmpty] at h ⊢

/-- C9: environment credentials shadow the stored file completely —
whenever either variable is set (even empty or whitespace), the stored
credential file is never consulted; and when exactly one of the two
trims to a non-empty value, resolution fails with the
incomplete-credentials error instead of falling back to the file. -/
theorem resolveClientCredentials_env_shadows_file (env : Env)
    (stored : Except String (Option StoredAuthConfig)) :
    (env.XERO_CLIENT_ID ≠ none ∨ env.XERO_CLIENT_SECRET ≠ none →
      (resolveClientCredentials env stored).2 = false) ∧
    ((trimNonEmpty env.XERO_CLIENT_ID).isSome ≠ (trimNonEmpty env.XERO_CLIENT_SECRET).isSome →
      resolveClientCredentials env stored =
        (.error "Incomplete client credentials in environment. Set both XERO_CLIENT_ID and XERO_CLIENT_SECRET.",
          false)) := by
  constructor
  · intro h
    have hprov : (env.XERO_CLIENT_ID.isSome || env.XERO_CLIENT_SECRET.isSome) = true := by
      rcases h with h | h <;> simp [Option.isSome_iff_ne_none, h]
    simp only [resolveClientCredentials, resolveEnvClientCredentials, hprov]
    cases trimNonEmpty env.XERO_CLIENT_ID <;> cases trimNonEmpty env.XERO_CLIENT_SECRET <;> simp
  · intro h
    rcases ha : trimNonEmpty env.XERO_CLIENT_ID with _ | a
    · rcases hb : trimNonEmpty env.XERO_CLIENT_SECRET with _ | b
      · simp [ha, hb] at h
      · have hbs := trimNonEmpty_some_isSome hb
        simp [resolveClientCredentials, resolveEnvClientCredentials, ha, hb, hbs]
    · rcases hb : trimNonEmpty env.XERO_CLIENT_SECRET with _ | b
      · have has := trimNonEmpty_some_isSome ha
        simp [resolveClientCredentials, resolveEnvClientCredentials, ha, hb, has]
      · simp [ha, hb] at h

/-- Witness for C9 with only `XERO_CLIENT_ID` set (non-empty). -/
theorem resolveClientCredentials_env_shadows_file_witness :
    resolveClientCredentials ⟨none, some "abc", none, none, none, none, none⟩ (.ok none) =
      (.error "Incomplete client credentials in environment. Set both XERO_CLIENT_ID and XERO_CLIENT_SECRET.",
        false) :=
  (resolveClientCredentials_env_shadows_file _ _).2 (by decide)

/-- Re-parsing an envelope the store just wrote always succeeds. -/
theorem parseEncryptedAuthFile_serialize (scryptSync : String → Nat → String)
    (salt iv : Nat) (payload : StoredAuthState) (p filePath : String) :
    parseEncryptedAuthFile (serializeEncryptedAuthFile scryptSync salt iv payload p) filePath =
      .ok (serializeEncryptedAuthFile scryptSync salt iv payload p) := by
  cases payload <;>
    simp [parseEncryptedAuthFile, serializeEncryptedAuthFile, StoredAuthState.mode]

/-- `trimNonEmpty` is the identity on trimmed non-empty strings. -/
theorem trimNonEmpty_of_trimmed {s : String} (h1 : jsTrim s = s) (h2 : s ≠ "") :
    trimNonEmpty (some s) = some s := by
  simp [trimNonEmpty, h1, h2]

/-- `normalizeOAuthScopes` is the identity on already-normalized
non-empty scope lists. -/
theorem normalizeOAuthScopes_of_normalized {scopes : List String}
    (hne : scopes ≠ [])
    (h : ∀ scope ∈ scopes, jsTrim scope = scope ∧ jsLength scope > 0) :
    normalizeOAuthScopes scopes = .ok scopes := by
  have hmap : scopes.map jsTrim = scopes := by
    conv_rhs => rw [← List.map_id scopes]
    exact List.map_congr_left (fun a ha => (h a ha).1)
  have hfil : scopes.filter (fun scope => jsLength scope > 0) = scopes := by
    rw [List.filter_eq_self]
    intro a ha
    exact decide_eq_true (h a ha).2
  simp only [normalizeOAuthScopes, hmap, hfil]
  rw [if_neg]
  simp [hne]

/-- C3 (amended): for every well-formed stored state (the only states
the store's write paths produce: trimmed non-empty credential fields,
normalized non-empty scopes), storing under a passphrase and loading
under the same passphrase reconstructs the state exactly, and loading
under any other passphrase fails with the single opaque decrypt error
— never a parse, format, or other error class.  `hinj` is the standard
collision-freeness idealization of the scrypt KDF. -/
theorem credential_store_roundtrip (scryptSync : String → Nat → String)
    (hinj : ∀ p q salt, scryptSync p salt = scryptSync q salt → p = q)
    (salt iv : Nat) (state : StoredAuthState) (p q filePath : String)
    (hwf : state.wellFormed) :
    storeThenLoad scryptSync salt iv state p p filePath = .ok state ∧
    (q ≠ p → storeThenLoad scryptSync salt iv state p q filePath =
      .error (decryptFailureMessage filePath)) := by
  constructor
  · rw [storeThenLoad, parseEncryptedAuthFile_serialize]
    cases state with
    | client_credentials clientId clientSecret savedAt =>
      rcases hwf with ⟨h1, h2, h3, h4⟩
      simp [decryptStoredAuthState, serializeEncryptedAuthFile, gcmDecrypt,
        trimNonEmpty_of_trimmed h1 h2, trimNonEmpty_of_trimmed h3 h4]
    | oauth clientId clientSecret redirectUri scopes tokenSet savedAt =>
      rcases hwf with ⟨h1, h2, h3, h4, h5, h6, h7, h8⟩
      simp [decryptStoredAuthState, serializeEncryptedAuthFile, gcmDecrypt,
        trimNonEmpty_of_trimmed h1 h2, trimNonEmpty_of_trimmed h3 h4,
        trimNonEmpty_of_trimmed h5 h6, normalizeOAuthScopes_of_normalized h7 h8]
  · intro hq
    rw [storeThenLoad, parseEncryptedAuthFile_serialize]
    have hkey : scryptSync q salt ≠ scryptSync p salt := by
      intro h
      exact hq (hinj q p salt h)
    simp [decryptStoredAuthState, serializeEncryptedAuthFile, gcmDecrypt, Ne.symm hkey]

/-- Witness for C3 at a concrete state and passphrase pair. -/
theorem credential_store_roundtrip_witness :
    storeThenLoad scrypt0 1 2 stWit "p" "p" "/a" = .ok stWit ∧
    storeThenLoad scrypt0 1 2 stWit "p" "q" "/a" = .error (decryptFailureMessage "/a") :=
  have h := credential_store_roundtrip scrypt0 (fun _ _ _ hx => hx) 1 2 stWit "p" "q" "/a"
    ⟨by decide, by decide, by decide, by decide⟩
  ⟨h.1, h.2 (by decide)⟩

/-- C3 counterexample: the claim quantifies over every
`StoredAuthState`, but a state whose `clientId` is empty (never
produced by the store's write paths, yet a `StoredAuthState`) fails
the decrypt-side validation even under the correct passphrase, so the
unrestricted round-trip property is false. -/
theorem storeThenLoad_blank_clientId_fails :
    storeThenLoad scrypt0 1 2 (.client_credentials "" "secret" "2026-01-01T00:00:00Z")
        "p" "p" "/a" =
      .error (decryptFailureMessage "/a") := rfl

/-- One-step unfolding of the result component of `buildArgsLoop`. -/
theorem buildArgsLoop_fst_cons (sem : JsSem) (fs : String → Option FileEntry)
    (tenantId : Option String) (uploadedFiles : Option (List (String × String)))
    (providedParams : List (String × String)) (q : ManifestParam)
    (rest : List ManifestParam) :
    (buildArgsLoop sem fs tenantId uploadedFiles providedParams (q :: rest)).1 =
      (if q.name = "xeroTenantId" then
        consArgSlot (tenantId.map ArgVal.str)
          (buildArgsLoop sem fs tenantId uploadedFiles providedParams rest).1
      else
        match providedParams.lookup q.name with
        | none =>
          if q.isRequired then .error (missingRequiredParamMessage q)
          else consArgSlot none
            (buildArgsLoop sem fs tenantId uploadedFiles providedParams rest).1
        | some providedValue =>
          match (parseValueByType sem fs q.declaredType providedValue q.name
              (uploadedFiles.bind (·.lookup q.name))).1 with
          | .error e => .error e
          | .ok v => consArgSlot (some v)
              (buildArgsLoop sem fs tenantId uploadedFiles providedParams rest).1) := by
  by_cases hq : q.name = "xeroTenantId"
  · rw [buildArgsLoop, if_pos hq, if_pos hq]
  · rw [buildArgsLoop, if_neg hq, if_neg hq]
    cases hl : List.lookup q.name providedParams with
    | none =>
      by_cases hr : q.isRequired = true
      · simp [hr]
      · rcases hrec : buildArgsLoop sem fs tenantId uploadedFiles providedParams rest with ⟨r, effs⟩
        simp [hr, hrec]
    | some providedValue =>
      rcases hp : parseValueByType sem fs q.declaredType providedValue q.name
          (uploadedFiles.bind fun x => List.lookup q.name x) with ⟨pv, effs₁⟩
      cases pv with
      | error e => simp [hp]
      | ok v =>
        rcases hrec : buildArgsLoop sem fs tenantId uploadedFiles providedParams rest with ⟨r, effs⟩
        simp [hp, hrec]

/-- Inversion for `consArgSlot` on a successful result. -/
theorem consArgSlot_ok {slot : Option ArgVal} {r : Except String (List (Option ArgVal))}
    {slots : List (Option ArgVal)} (h : consArgSlot slot r = .ok slots) :
    ∃ rest, r = .ok rest ∧ slots = slot :: rest := by
  cases r with
  | error e => simp [consArgSlot] at h
  | ok l =>
    simp [consArgSlot] at h
    exact ⟨l, rfl, h.symm⟩

/-- A required non-tenant parameter that is not provided makes the
argument loop fail. -/
theorem buildArgsLoop_required_missing (sem : JsSem) (fs : String → Option FileEntry)
    (tenantId : Option String) (uploadedFiles : Option (List (String × String)))
    (providedParams : List (String × String)) (params : List ManifestParam)
    (p : ManifestParam) (hp : p ∈ params) (hreq : p.isRequired = true)
    (hname : p.name ≠ "xeroTenantId")
    (hmiss : providedParams.lookup p.name = none) :
    ∃ e, (buildArgsLoop sem fs tenantId uploadedFiles providedParams params).1 = .error e := by
  induction params with
  | nil => cases hp
  | cons q rest ih =>
    rw [buildArgsLoop_fst_cons]
    rcases List.mem_cons.mp hp with rfl | hmem
    · exact ⟨missingRequiredParamMessage p, by simp [hname, hmiss, hreq]⟩
    · by_cases hq : q.name = "xeroTenantId"
      · obtain ⟨e, he⟩ := ih hmem
        exact ⟨e, by simp [hq, he, consArgSlot]⟩
      · rw [if_neg hq]
        cases hl : List.lookup q.name providedParams with
        | none =>
          by_cases hr : q.isRequired = true
          · exact ⟨missingRequiredParamMessage q, by simp [hl, hr]⟩
          · obtain ⟨e, he⟩ := ih hmem
            exact ⟨e, by simp [hr, he, consArgSlot]⟩
        | some v =>
          cases hpv : (parseValueByType sem fs q.declaredType v q.name
              (uploadedFiles.bind fun x => List.lookup q.name x)).1 with
          | error e => exact ⟨e, by simp [hpv]⟩
          | ok a =>
            obtain ⟨e, he⟩ := ih hmem
            exact ⟨e, by simp [hpv, he, consArgSlot]⟩

/-- The argument loop succeeds whenever every required non-tenant
parameter is provided and every provided value parses — in particular
absence of optional parameters never causes a failure. -/
theorem buildArgsLoop_complete (sem : JsSem) (fs : String → Option FileEntry)
    (tenantId : Option String) (uploadedFiles : Option (List (String × String)))
    (providedParams : List (String × String)) (params : List ManifestParam)
    (hreqprov : ∀ p ∈ params, p.name ≠ "xeroTenantId" → p.isRequired = true →
      (providedParams.lookup p.name).isSome = true)
    (hparse : ∀ p ∈ params, ∀ v, providedParams.lookup p.name = some v →
      ∃ a, (parseValueByType sem fs p.declaredType v p.name
          (uploadedFiles.bind (·.lookup p.name))).1 = .ok a) :
    ∃ slots, (buildArgsLoop sem fs tenantId uploadedFiles providedParams params).1 = .ok slots := by
  induction params with
  | nil => exact ⟨[], rfl⟩
  | cons q rest ih =>
    obtain ⟨slots, hs⟩ := ih
      (fun p hp => hreqprov p (List.mem_cons_of_mem q hp))
      (fun p hp => hparse p (List.mem_cons_of_mem q hp))
    rw [buildArgsLoop_fst_cons]
    by_cases hq : q.name = "xeroTenantId"
    · exact ⟨tenantId.map ArgVal.str :: slots, by simp [hq, hs, consArgSlot]⟩
    · cases hl : List.lookup q.name providedParams with
      | none =>
        have hr : ¬ q.isRequired = true := by
          intro hr
          have := hreqprov q (List.mem_cons_self q rest) hq hr
          simp [hl] at this
        exact ⟨none :: slots, by simp [hq, hl, hr, hs, consArgSlot]⟩
      | some v =>
        obtain ⟨a, ha⟩ := hparse q (List.mem_cons_self q rest) v hl
        exact ⟨some a :: slots, by simp [hq, hl, ha, hs, consArgSlot]⟩

/-- Pointwise description of a successfully built argument vector:
the tenant slot holds the resolved tenant id, and the slot of an
unprovided (hence optional) parameter is left unfilled. -/
theorem buildArgsLoop_slots_spec (sem : JsSem) (fs : String → Option FileEntry)
    (tenantId : Option String) (uploadedFiles : Option (List (String × String)))
    (providedParams : List (String × String)) (params : List ManifestParam)
    (slots : List (Option ArgVal))
    (h : (buildArgsLoop sem fs tenantId uploadedFiles providedParams params).1 = .ok slots) :
    List.Forall₂ (fun p slot =>
      (p.name = "xeroTenantId" → slot = tenantId.map ArgVal.str) ∧
      (p.name ≠ "xeroTenantId" → providedParams.lookup p.name = none → slot = none))
      params slots := by
  induction params generalizing slots with
  | nil =>
    have : slots = [] := by
      have h0 : (buildArgsLoop sem fs tenantId uploadedFiles providedParams []).1 = .ok [] := rfl
      rw [h0] at h
      cases h
      rfl
    subst this
    exact List.Forall₂.nil
  | cons q rest ih =>
    rw [buildArgsLoop_fst_cons] at h
    by_cases hq : q.name = "xeroTenantId"
    · rw [if_pos hq] at h
      obtain ⟨tail, htail, rfl⟩ := consArgSlot_ok h
      exact List.Forall₂.cons ⟨fun _ => rfl, fun hn _ => absurd hq hn⟩ (ih tail htail)
    · rw [if_neg hq] at h
      cases hl : List.lookup q.name providedParams with
      | none =>
        by_cases hr : q.isRequired = true
        · simp only [hl, hr, if_true] at h
          cases h
        · simp only [hl, hr, if_false] at h
          obtain ⟨tail, htail, rfl⟩ := consArgSlot_ok h
          exact List.Forall₂.cons ⟨fun hn => absurd hn hq, fun _ _ => rfl⟩ (ih tail htail)
      | some v =>
        cases hpv : (parseValueByType sem fs q.declaredType v q.name
            (uploadedFiles.bind fun x => List.lookup q.name x)).1 with
        | error e =>
          simp only [hl, hpv] at h
          cases h
        | ok a =>
          simp only [hl, hpv] at h
          obtain ⟨tail, htail, rfl⟩ := consArgSlot_ok h
          refine List.Forall₂.cons ⟨fun hn => absurd hn hq, fun _ hnone => ?_⟩ (ih tail htail)
          rw [hnone] at hl
          cases hl

/-- The head surviving a `dropWhile` falsifies the predicate. -/
theorem head?_dropWhile_not {α : Type} (p : α → Bool) (l : List α) (x : α)
    (h : (l.dropWhile p).head? = some x) : p x = false := by
  induction l with
  | nil => simp [List.dropWhile] at h
  | cons a t ih =>
    rw [List.dropWhile_cons] at h
    by_cases hpa : p a = true
    · rw [if_pos hpa] at h
      exact ih h
    · rw [if_neg hpa] at h
      cases h
      exact Bool.not_eq_true _ |>.mp hpa

/-- `dropTrailingUndefined` removes exactly a trailing block of
unfilled slots, and the resulting vector never ends in one — it is the
shortest prefix containing every filled slot. -/
theorem dropTrailingUndefined_spec (l : List (Option ArgVal)) :
    (∃ k, l = dropTrailingUndefined l ++ List.replicate k none) ∧
    (∀ slot, (dropTrailingUndefined l).getLast? = some slot → slot ≠ none) := by
  constructor
  · refine ⟨(l.reverse.takeWhile Option.isNone).length, ?_⟩
    have hsplit : l.reverse.takeWhile Option.isNone ++ l.reverse.dropWhile Option.isNone = l.reverse :=
      List.takeWhile_append_dropWhile Option.isNone l.reverse
    have hrep : l.reverse.takeWhile Option.isNone =
        List.replicate (l.reverse.takeWhile Option.isNone).length none := by
      rw [List.eq_replicate_iff]
      refine ⟨rfl, ?_⟩
      intro b hb
      have := List.mem_takeWhile_imp hb
      exact Option.eq_none_of_isNone this
    calc l = l.reverse.reverse := (List.reverse_reverse l).symm
    _ = (l.reverse.takeWhile Option.isNone ++ l.reverse.dropWhile Option.isNone).reverse := by
        rw [hsplit]
    _ = (l.reverse.dropWhile Option.isNone).reverse ++ (l.reverse.takeWhile Option.isNone).reverse := by
        rw [List.reverse_append]
    _ = dropTrailingUndefined l ++ (l.reverse.takeWhile Option.isNone).reverse := rfl
    _ = dropTrailingUndefined l ++ List.replicate (l.reverse.takeWhile Option.isNone).length none := by
        conv_lhs => rw [hrep]
        rw [List.reverse_replicate]
  · intro slot h
    rw [dropTrailingUndefined, List.getLast?_reverse] at h
    have := head?_dropWhile_not _ _ _ h
    intro hn
    subst hn
    simp at this

/-- The provided-name check passes when every provided name is a
non-reserved signature name. -/
theorem checkProvidedNames_ok (methodName : String) (sigNames : List String)
    (pm : List (String × String))
    (h : ∀ x ∈ pm, x.1 ≠ "xeroTenantId" ∧ x.1 ∈ sigNames) :
    checkProvidedNames methodName sigNames pm = .ok () := by
  induction pm with
  | nil => rfl
  | cons x rest ih =>
    obtain ⟨hx1, hx2⟩ := h x (List.mem_cons_self x rest)
    have hrest := fun y hy => h y (List.mem_cons_of_mem x hy)
    rcases x with ⟨name, v⟩
    rw [checkProvidedNames, if_neg hx1]
    have hc : sigNames.contains name = true := List.elem_eq_true_of_mem hx2
    simp only [hc, Bool.not_true, if_false]
    exact ih hrest

/-- `buildInvokeArgs` as the pipeline token-parse → name-check →
argument loop → trailing trim, on the result component. -/
theorem buildInvokeArgs_fst (sem : JsSem) (fs : String → Option FileEntry)
    (mm : ManifestMethod) (tenantId : Option String) (rawParams : List String)
    (uploadedFiles : Option (List (String × String))) :
    (buildInvokeArgs sem fs mm tenantId rawParams uploadedFiles).1 =
      (match parseRawNamedParams rawParams with
      | .error e => .error e
      | .ok providedParams =>
        match checkProvidedNames mm.name (mm.params.map (·.name)) providedParams with
        | .error e => .error e
        | .ok _ =>
          match (buildArgsLoop sem fs tenantId uploadedFiles providedParams mm.params).1 with
          | .error e => .error e
          | .ok args => .ok (dropTrailingUndefined args)) := by
  rcases hp : parseRawNamedParams rawParams with e | providedParams
  · simp [buildInvokeArgs, hp]
  · rcases hc : checkProvidedNames mm.name (mm.params.map (·.name)) providedParams with e | u
    · simp [buildInvokeArgs, hp, hc]
    · rcases hrec : buildArgsLoop sem fs tenantId uploadedFiles providedParams mm.params with ⟨r, effs⟩
      cases r <;> simp [buildInvokeArgs, hp, hc, hrec]

/-- C5: omitting any required parameter other than the tenant-id slot
always fails resolution; omitting optional parameters never fails (a
build succeeds whenever all required parameters are provided and all
provided values parse) and leaves the corresponding positional slot
unfilled; and the returned vector is the built vector with all trailing
unfilled slots trimmed, so it is the shortest valid positional list. -/
theorem buildInvokeArgs_required_optional_trim (sem : JsSem)
    (fs : String → Option FileEntry) (mm : ManifestMethod)
    (tenantId : Option String) (rawParams : List String)
    (uploadedFiles : Option (List (String × String))) :
    (∀ p ∈ mm.params, p.isRequired = true → p.name ≠ "xeroTenantId" →
      (∀ pm, parseRawNamedParams rawParams = .ok pm → pm.lookup p.name = none) →
      ∃ e, (buildInvokeArgs sem fs mm tenantId rawParams uploadedFiles).1 = .error e) ∧
    (∀ pm, parseRawNamedParams rawParams = .ok pm →
      (∀ x ∈ pm, x.1 ≠ "xeroTenantId" ∧ x.1 ∈ mm.params.map (·.name)) →
      (∀ p ∈ mm.params, p.name ≠ "xeroTenantId" → p.isRequired = true →
        (pm.lookup p.name).isSome = true) →
      (∀ p ∈ mm.params, ∀ v, pm.lookup p.name = some v →
        ∃ a, (parseValueByType sem fs p.declaredType v p.name
            (uploadedFiles.bind (·.lookup p.name))).1 = .ok a) →
      ∃ args, (buildInvokeArgs sem fs mm tenantId rawParams uploadedFiles).1 = .ok args) ∧
    (∀ pm args, parseRawNamedParams rawParams = .ok pm →
      (buildInvokeArgs sem fs mm tenantId rawParams uploadedFiles).1 = .ok args →
      ∃ slots k,
        (buildArgsLoop sem fs tenantId uploadedFiles pm mm.params).1 = .ok slots ∧
        List.Forall₂ (fun p slot =>
          (p.name = "xeroTenantId" → slot = tenantId.map ArgVal.str) ∧
          (p.name ≠ "xeroTenantId" → pm.lookup p.name = none → slot = none))
          mm.params slots ∧
        slots = args ++ List.replicate k none ∧
        (∀ slot, args.getLast? = some slot → slot ≠ none)) := by
  refine ⟨?_, ?_, ?_⟩
  · intro p hp hreq hname hmiss
    rcases hpm : parseRawNamedParams rawParams with e | pm
    · exact ⟨e, by simp [buildInvokeArgs_fst, hpm]⟩
    · rcases hc : checkProvidedNames mm.name (mm.params.map (·.name)) pm with e | u
      · exact ⟨e, by simp [buildInvokeArgs_fst, hpm, hc]⟩
      · obtain ⟨e, he⟩ := buildArgsLoop_required_missing sem fs tenantId uploadedFiles
          pm mm.params p hp hreq hname (hmiss pm hpm)
        exact ⟨e, by simp [buildInvokeArgs_fst, hpm, hc, he]⟩
  · intro pm hpm hnames hreqprov hparse
    have hc := checkProvidedNames_ok mm.name (mm.params.map (·.name)) pm hnames
    obtain ⟨slots, hs⟩ := buildArgsLoop_complete sem fs tenantId uploadedFiles
      pm mm.params hreqprov hparse
    exact ⟨dropTrailingUndefined slots, by simp [buildInvokeArgs_fst, hpm, hc, hs]⟩
  · intro pm args hpm hok
    simp only [buildInvokeArgs_fst, hpm] at hok
    rcases hc : checkProvidedNames mm.name (mm.params.map (·.name)) pm with e | u
    · simp [hc] at hok
    · simp only [hc] at hok
      rcases hloop : (buildArgsLoop sem fs tenantId uploadedFiles pm mm.params).1 with e | slots
      · simp [hloop] at hok
      · simp only [hloop, Except.ok.injEq] at hok
        obtain ⟨⟨k, hk⟩, hlast⟩ := dropTrailingUndefined_spec slots
        subst hok
        exact ⟨slots, k, rfl,
          buildArgsLoop_slots_spec sem fs tenantId uploadedFiles pm mm.params slots hloop,
          hk, hlast⟩

/-- Witness for C5: omitting required `name` on a concrete method
fails. -/
theorem buildInvokeArgs_required_optional_trim_witness :
    ∃ e, (buildInvokeArgs sem0 fs0 mmWit (some "T") [] none).1 = .error e :=
  (buildInvokeArgs_required_optional_trim sem0 fs0 mmWit (some "T") [] none).1
    ⟨"name", "string", false, false, true⟩ (by decide) rfl (by decide)
    (fun pm hpm => by
      simp [parseRawNamedParams, parseRawNamedParamsLoop] at hpm
      subst hpm
      rfl)

/-- Every effect of the binary file-path arm is a parameter file
probe/read. -/
theorem parseBinaryFilePath_effs (fs : String → Option FileEntry)
    (rawValue name : String) :
    ∀ e ∈ (parseBinaryFilePath fs rawValue name).2, e.isParamFile = true := by
  rw [parseBinaryFilePath]
  by_cases h0 : jsTrim rawValue = ""
  · simp [h0]
  · rw [if_neg h0]
    cases hfs : fs (jsTrim rawValue) with
    | none => simp [Eff.isParamFile]
    | some entry =>
      by_cases hf : entry.isFile = true <;> simp [hf, Eff.isParamFile]

/-- Every effect of the structured-data fallback is a parameter file
probe/read. -/
theorem parseJsonModelValue_effs (sem : JsSem) (fs : String → Option FileEntry)
    (rawValue name declaredType : String) :
    ∀ e ∈ (parseJsonModelValue sem fs rawValue name declaredType).2,
      e.isParamFile = true := by
  rw [parseJsonModelValue]
  by_cases h0 : jsTrim rawValue = ""
  · simp [h0]
  · rw [if_neg h0]
    by_cases hj : jsEndsWith (jsToLower (jsTrim rawValue)) ".json" = true
    · rw [if_pos hj]
      cases hfs : fs (jsTrim rawValue) with
      | none => simp [Eff.isParamFile]
      | some entry =>
        by_cases hf : entry.isFile = true
        · cases hp : sem.jsonParse entry.contents <;> simp [hf, hp, Eff.isParamFile]
        · simp [hf, Eff.isParamFile]
    · rw [if_neg hj]
      cases sem.jsonParse (jsTrim rawValue) <;> simp

/-- Every effect of `parseValueByType` is a parameter file
probe/read. -/
theorem parseValueByType_effs (sem : JsSem) (fs : String → Option FileEntry)
    (declaredType rawValue name : String) (uploadedFile : Option String) :
    ∀ e ∈ (parseValueByType sem fs declaredType rawValue name uploadedFile).2,
      e.isParamFile = true := by
  rw [parseValueByType.eq_def]
  by_cases h1 : declaredType = "string"
  · simp [h1]
  · rw [if_neg h1]
    by_cases h2 : declaredType = "number"
    · rw [if_pos h2]
      by_cases hv : jsTrim rawValue = ""
      · simp [hv]
      · by_cases hn : sem.numberFinite rawValue = true <;> simp [hv, hn]
    · rw [if_neg h2]
      by_cases h3 : declaredType = "boolean"
      · rw [if_pos h3]
        by_cases ht : jsToLower (jsTrim rawValue) = "true"
        · simp [ht]
        · by_cases hf : jsToLower (jsTrim rawValue) = "false" <;> simp [ht, hf]
      · rw [if_neg h3]
        by_cases h4 : declaredType = "Date"
        · rw [if_pos h4]
          by_cases hv : jsTrim rawValue = ""
          · simp [hv]
          · by_cases hd : sem.dateValid rawValue = true <;> simp [hv, hd]
        · rw [if_neg h4]
          by_cases h5 : declaredType = "Array<string>"
          · rw [if_pos h5]
            dsimp only
            split
            · simp
            · split <;> simp
          · rw [if_neg h5]
            by_cases h6 : declaredType = BINARY_FILE_PARAM_TYPE
            · rw [if_pos h6]
              cases uploadedFile with
              | none => exact parseBinaryFilePath_effs fs rawValue name
              | some uploaded =>
                dsimp only
                by_cases hu : uploaded = ""
                · rw [if_pos hu]
                  exact parseBinaryFilePath_effs fs rawValue name
                · rw [if_neg hu]
                  simp
            · rw [if_neg h6]
              by_cases h7 : (jsSplitOnBar declaredType).length ≥ 2
              · rw [if_pos h7]
                cases hu : parseStringLiteralUnionValues declaredType with
                | none => simp [hu]
                | some unionValues =>
                  simp only [hu]
                  split <;> simp
              · rw [if_neg h7]
                exact parseJsonModelValue_effs sem fs rawValue name declaredType

/-- One-step unfolding of the effect component of `buildArgsLoop`. -/
theorem buildArgsLoop_snd_cons (sem : JsSem) (fs : String → Option FileEntry)
    (tenantId : Option String) (uploadedFiles : Option (List (String × String)))
    (providedParams : List (String × String)) (q : ManifestParam)
    (rest : List ManifestParam) :
    (buildArgsLoop sem fs tenantId uploadedFiles providedParams (q :: rest)).2 =
      (if q.name = "xeroTenantId" then
        (buildArgsLoop sem fs tenantId uploadedFiles providedParams rest).2
      else
        match providedParams.lookup q.name with
        | none =>
          if q.isRequired then []
          else (buildArgsLoop sem fs tenantId uploadedFiles providedParams rest).2
        | some providedValue =>
          match (parseValueByType sem fs q.declaredType providedValue q.name
              (uploadedFiles.bind (·.lookup q.name))).1 with
          | .error _ =>
            (parseValueByType sem fs q.declaredType providedValue q.name
              (uploadedFiles.bind (·.lookup q.name))).2
          | .ok _ =>
            (parseValueByType sem fs q.declaredType providedValue q.name
              (uploadedFiles.bind (·.lookup q.name))).2 ++
            (buildArgsLoop sem fs tenantId uploadedFiles providedParams rest).2) := by
  by_cases hq : q.name = "xeroTenantId"
  · rw [buildArgsLoop, if_pos hq, if_pos hq]
  · rw [buildArgsLoop, if_neg hq, if_neg hq]
    cases hl : List.lookup q.name providedParams with
    | none =>
      by_cases hr : q.isRequired = true
      · simp [hr]
      · rcases hrec : buildArgsLoop sem fs tenantId uploadedFiles providedParams rest with ⟨r, effs⟩
        simp [hr, hrec]
    | some providedValue =>
      rcases hp : parseValueByType sem fs q.declaredType providedValue q.name
          (uploadedFiles.bind fun x => List.lookup q.name x) with ⟨pv, effs₁⟩
      cases pv with
      | error e => simp [hp]
      | ok v =>
        rcases hrec : buildArgsLoop sem fs tenantId uploadedFiles providedParams rest with ⟨r, effs⟩
        simp [hp, hrec]

/-- Every effect of the argument loop is a parameter file
probe/read. -/
theorem buildArgsLoop_effs (sem : JsSem) (fs : String → Option FileEntry)
    (tenantId : Option String) (uploadedFiles : Option (List (String × String)))
    (providedParams : List (String × String)) (params : List ManifestParam) :
    ∀ e ∈ (buildArgsLoop sem fs tenantId uploadedFiles providedParams params).2,
      e.isParamFile = true := by
  induction params with
  | nil => simp [buildArgsLoop]
  | cons q rest ih =>
    rw [buildArgsLoop_snd_cons]
    by_cases hq : q.name = "xeroTenantId"
    · rw [if_pos hq]
      exact ih
    · rw [if_neg hq]
      cases hl : List.lookup q.name providedParams with
      | none =>
        by_cases hr : q.isRequired = true
        · simp [hr]
        · simp only [hr, if_false]
          exact ih
      | some providedValue =>
        cases hpv : (parseValueByType sem fs q.declaredType providedValue q.name
            (uploadedFiles.bind fun x => List.lookup q.name x)).1 with
        | error e =>
          simp only [hpv]
          exact fun e' he' => parseValueByType_effs sem fs q.declaredType providedValue q.name
            (uploadedFiles.bind fun x => List.lookup q.name x) e' he'
        | ok v =>
          simp only [hpv]
          intro e' he'
          rcases List.mem_append.mp he' with h | h
          · exact parseValueByType_effs sem fs q.declaredType providedValue q.name
              (uploadedFiles.bind fun x => List.lookup q.name x) e' h
          · exact ih e' h

/-- Every effect of `buildInvokeArgs` is a parameter file
probe/read. -/
theorem buildInvokeArgs_effs (sem : JsSem) (fs : String → Option FileEntry)
    (mm : ManifestMethod) (tenantId : Option String) (rawParams : List String)
    (uploadedFiles : Option (List (String × String))) :
    ∀ e ∈ (buildInvokeArgs sem fs mm tenantId rawParams uploadedFiles).2,
      e.isParamFile = true := by
  rcases hp : parseRawNamedParams rawParams with e | providedParams
  · simp [buildInvokeArgs, hp]
  · rcases hc : checkProvidedNames mm.name (mm.params.map (·.name)) providedParams with e | u
    · simp [buildInvokeArgs, hp, hc]
    · rcases hrec : buildArgsLoop sem fs tenantId uploadedFiles providedParams mm.params
        with ⟨r, effs⟩
      have heffs := buildArgsLoop_effs sem fs tenantId uploadedFiles providedParams mm.params
      rw [hrec] at heffs
      cases r <;> simp [buildInvokeArgs, hp, hc, hrec] <;> exact fun e he => heffs e he

/-- `resolveInvokeCall` effects are the manifest read plus parameter
file accesses; any parameter file access, and any success, implies the
alias resolved and the catalog signature was found. -/
theorem resolveInvokeCall_effs (sem : JsSem) (fs : String → Option FileEntry)
    (manifest : XeroApiManifest) (input : InvokeInput) (env : Env) :
    (∀ e ∈ (resolveInvokeCall sem fs manifest input env).2,
      e = .manifestRead ∨ e.isParamFile = true) ∧
    ((∃ e ∈ (resolveInvokeCall sem fs manifest input env).2, e.isParamFile = true) →
      ∃ mapping, resolveApiMapping input.api = some mapping ∧
        signatureOk manifest mapping.property input.method) ∧
    (∀ r, (resolveInvokeCall sem fs manifest input env).1 = .ok r →
      resolveApiMapping input.api = some r.mapping ∧
        signatureOk manifest r.mapping.property input.method) := by
  rcases hm : resolveApiMapping input.api with _ | mapping
  · simp [resolveInvokeCall, hm]
  · rcases ht : (if mapping.requiresTenantId then
        (resolveTenantId env input.tenantId).map some else .ok none) with e | tenantId
    · simp [resolveInvokeCall, hm, ht]
    · rcases hmm : resolveManifestMethod manifest mapping.property input.method with _ | manifestMethod
      · simp [resolveInvokeCall, hm, ht, hmm, Eff.isParamFile]
      · by_cases hsig : manifestMethod.signatureFound = true
        · rcases hb : buildInvokeArgs sem fs manifestMethod tenantId input.rawParams
            input.uploadedFiles with ⟨r, effs⟩
          have heffs := buildInvokeArgs_effs sem fs manifestMethod tenantId input.rawParams
            input.uploadedFiles
          rw [hb] at heffs
          have hsigok : signatureOk manifest mapping.property input.method :=
            ⟨manifestMethod, hmm, hsig⟩
          cases r with
          | error e =>
            simp only [resolveInvokeCall, hm, ht, hmm, hsig, hb]
            refine ⟨?_, ?_, ?_⟩
            · intro e' he'
              simp at he'
              rcases he' with rfl | h
              · exact Or.inl rfl
              · exact Or.inr (heffs _ h)
            · intro _
              exact ⟨mapping, rfl, hsigok⟩
            · intro r hr
              simp at hr
          | ok args =>
            simp only [resolveInvokeCall, hm, ht, hmm, hsig, hb]
            refine ⟨?_, ?_, ?_⟩
            · intro e' he'
              simp at he'
              rcases he' with rfl | h
              · exact Or.inl rfl
              · exact Or.inr (heffs _ h)
            · intro _
              exact ⟨mapping, rfl, hsigok⟩
            · intro r hr
              simp at hr
              subst hr
              exact ⟨rfl, hsigok⟩
        · simp only [resolveInvokeCall, hm, ht, hmm, hsig]
          refine ⟨?_, ?_, ?_⟩
          · intro e' he'
            simp at he'
            subst he'
            exact Or.inl rfl
          · intro ⟨e', he', hpf⟩
            simp at he'
            subst he'
            simp [Eff.isParamFile] at hpf
          · intro r hr
            simp at hr

/-- The gate-passed tail of the invocation: its effects are manifest
read, parameter file accesses, credential resolution and the remote
call; any parameter file access or credential resolution — and any
success — implies the alias resolved and the signature was found. -/
theorem invokeAfterGate_effs (w : World) (input : InvokeInput) (env : Env) :
    (∀ e ∈ (invokeAfterGate w input env).2,
      e = .manifestRead ∨ e.isParamFile = true ∨ e = .credentialResolve ∨ e = .remoteCall) ∧
    ((∃ e ∈ (invokeAfterGate w input env).2,
        e.isParamFile = true ∨ e = .credentialResolve) →
      ∃ mapping, resolveApiMapping input.api = some mapping ∧
        signatureOk w.manifest mapping.property input.method) ∧
    (∀ res, (invokeAfterGate w input env).1 = .ok res →
      ∃ mapping, resolveApiMapping input.api = some mapping ∧
        signatureOk w.manifest mapping.property input.method) := by
  have hr := resolveInvokeCall_effs w.sem w.fs w.manifest input env
  rcases hric : resolveInvokeCall w.sem w.fs w.manifest input env with ⟨res, effs⟩
  rw [hric] at hr
  obtain ⟨hshape, hpf, hok⟩ := hr
  cases res with
  | error e =>
    refine ⟨?_, ?_, ?_⟩
    · intro e' he'
      simp only [invokeAfterGate, hric] at he'
      rcases hshape e' he' with h | h
      · exact Or.inl h
      · exact Or.inr (Or.inl h)
    · intro ⟨e', he', hc⟩
      simp only [invokeAfterGate, hric] at he'
      rcases hc with hc | hc
      · exact hpf ⟨e', he', hc⟩
      · rcases hshape e' he' with h | h
        · subst hc; cases h
        · subst hc; simp [Eff.isParamFile] at h
    · intro res hres
      simp only [invokeAfterGate, hric] at hres
      cases hres
  | ok r =>
    obtain ⟨hmap, hsig⟩ := hok r rfl
    have step : ∀ e' ∈ (invokeAfterGate w input env).2,
        e' ∈ effs ∨ e' = .credentialResolve ∨ e' = .remoteCall := by
      intro e' he'
      simp only [invokeAfterGate, hric] at he'
      rcases hcred : w.credentials with ce | cu <;> simp only [hcred] at he'
      · simp at he'
        rcases he' with h | h
        · exact Or.inl h
        · exact Or.inr (Or.inl h)
      · by_cases hac : w.apiClientAvailable = true
        · by_cases hmf : w.methodIsFunction = true
          · rcases hrem : w.remote with re | ru <;>
              simp [hac, hmf, hrem] at he' <;>
              rcases he' with h | h | h
            · exact Or.inl h
            · exact Or.inr (Or.inl h)
            · exact Or.inr (Or.inr h)
            · exact Or.inl h
            · exact Or.inr (Or.inl h)
            · exact Or.inr (Or.inr h)
          · simp [hac, hmf] at he'
            rcases he' with h | h
            · exact Or.inl h
            · exact Or.inr (Or.inl h)
        · simp [hac] at he'
          rcases he' with h | h
          · exact Or.inl h
          · exact Or.inr (Or.inl h)
    refine ⟨?_, ?_, ?_⟩
    · intro e' he'
      rcases step e' he' with h | h | h
      · rcases hshape e' h with hh | hh
        · exact Or.inl hh
        · exact Or.inr (Or.inl hh)
      · exact Or.inr (Or.inr (Or.inl h))
      · exact Or.inr (Or.inr (Or.inr h))
    · intro _
      exact ⟨r.mapping, hmap, hsig⟩
    · intro _ _
      exact ⟨r.mapping, hmap, hsig⟩

/-- A `block` decision makes the body fail having performed only the
policy-file read. -/
theorem invokeBody_block (w : World) (input : InvokeInput) (env : Env)
    (mapping : ApiMapping) (polRes : MethodPolicyResolution)
    (hmap : resolveApiMapping input.api = some mapping)
    (hpol : resolveMethodPolicy w.policy (mapping.aliasName ++ "." ++ input.method) = .ok polRes)
    (hblock : polRes.policy = .block) :
    (∃ e, (invokeBody w input env).1 = .error e) ∧
    (invokeBody w input env).2.2 = [.policyRead] := by
  by_cases he : polRes.hasEntry = true
  · simp [invokeBody, hmap, hpol, hblock, he]
  · cases hpp : polRes.policyPath <;> simp [invokeBody, hmap, hpol, hblock, he, hpp]

/-- An `ask` decision with no interactive terminal makes the body fail
with the approval-unavailable error, having performed only the
policy-file read. -/
theorem invokeBody_ask_no_tty (w : World) (input : InvokeInput) (env : Env)
    (mapping : ApiMapping) (polRes : MethodPolicyResolution)
    (hmap : resolveApiMapping input.api = some mapping)
    (hpol : resolveMethodPolicy w.policy (mapping.aliasName ++ "." ++ input.method) = .ok polRes)
    (hask : polRes.policy = .ask)
    (htty : w.stdinIsTTY = false ∨ w.stdoutIsTTY = false) :
    invokeBody w input env =
      (.error (approvalUnavailableMessage (mapping.aliasName ++ "." ++ input.method)),
        some .ask, [.policyRead]) := by
  have hprompt : promptAskPolicyDecision w (mapping.aliasName ++ "." ++ input.method) =
      .error (approvalUnavailableMessage (mapping.aliasName ++ "." ++ input.method)) := by
    rw [promptAskPolicyDecision, if_pos]
    rcases htty with h | h <;> simp [h]
  simp [invokeBody, hmap, hpol, hask, hprompt]

/-- Effect and success characterization of the `try` body: effects are
confined to the five non-audit kinds; a parameter file access or a
credential resolution — and any success — implies the alias resolved,
the policy gate passed (allow, or ask plus approval) and the catalog
signature was found. -/
theorem invokeBody_gate_effs (w : World) (input : InvokeInput) (env : Env) :
    (∀ e ∈ (invokeBody w input env).2.2,
      e = .policyRead ∨ e = .manifestRead ∨ e.isParamFile = true ∨
        e = .credentialResolve ∨ e = .remoteCall) ∧
    ((∃ e ∈ (invokeBody w input env).2.2, e.isParamFile = true ∨ e = .credentialResolve) →
      ∃ mapping, resolveApiMapping input.api = some mapping ∧
        policyGatePassed w (mapping.aliasName ++ "." ++ input.method) ∧
        signatureOk w.manifest mapping.property input.method) ∧
    (∀ res, (invokeBody w input env).1 = .ok res →
      ∃ mapping, resolveApiMapping input.api = some mapping ∧
        policyGatePassed w (mapping.aliasName ++ "." ++ input.method) ∧
        signatureOk w.manifest mapping.property input.method) := by
  rcases hmap : resolveApiMapping input.api with _ | mapping
  · refine ⟨?_, ?_, ?_⟩ <;> simp [invokeBody, hmap]
  · rcases hpol : resolveMethodPolicy w.policy (mapping.aliasName ++ "." ++ input.method)
      with e | polRes
    · refine ⟨?_, ?_, ?_⟩ <;> simp [invokeBody, hmap, hpol, Eff.isParamFile]
    · have hAG := invokeAfterGate_effs w input env
      obtain ⟨hshape, hgate, hok⟩ := hAG
      cases hpp : polRes.policy with
      | block =>
        obtain ⟨⟨e, he⟩, heffs⟩ := invokeBody_block w input env mapping polRes hmap hpol hpp
        refine ⟨?_, ?_, ?_⟩
        · intro e' he'
          rw [heffs] at he'
          simp at he'
          subst he'
          exact Or.inl rfl
        · intro ⟨e', he', hc⟩
          rw [heffs] at he'
          simp at he'
          subst he'
          rcases hc with hc | hc
          · simp [Eff.isParamFile] at hc
          · cases hc
        · intro res hres
          rw [he] at hres
          cases hres
      | allow =>
        have hbody : invokeBody w input env =
            ((invokeAfterGate w input env).1, some polRes.policy,
              .policyRead :: (invokeAfterGate w input env).2) := by
          simp [invokeBody, hmap, hpol, hpp]
        rw [hbody]
        refine ⟨?_, ?_, ?_⟩
        · intro e' he'
          simp at he'
          rcases he' with rfl | h
          · exact Or.inl rfl
          · exact Or.inr (hshape e' h)
        · intro ⟨e', he', hc⟩
          simp at he'
          rcases he' with rfl | h
          · rcases hc with hc | hc
            · simp [Eff.isParamFile] at hc
            · cases hc
          · obtain ⟨m, hm, hsig⟩ := hgate ⟨e', h, hc⟩
            rw [hmap] at hm
            cases hm
            exact ⟨mapping, rfl, ⟨polRes, hpol, Or.inl hpp⟩, hsig⟩
        · intro res hres
          simp at hres
          obtain ⟨m, hm, hsig⟩ := hok res hres
          rw [hmap] at hm
          cases hm
          exact ⟨mapping, rfl, ⟨polRes, hpol, Or.inl hpp⟩, hsig⟩
      | ask =>
        rcases hprompt : promptAskPolicyDecision w (mapping.aliasName ++ "." ++ input.method)
          with e | approved
        · have hbody : invokeBody w input env =
              (.error e, some polRes.policy, [.policyRead]) := by
            simp [invokeBody, hmap, hpol, hpp, hprompt]
          rw [hbody]
          refine ⟨?_, ?_, ?_⟩
          · intro e' he'
            simp at he'
            subst he'
            exact Or.inl rfl
          · intro ⟨e', he', hc⟩
            simp at he'
            subst he'
            rcases hc with hc | hc
            · simp [Eff.isParamFile] at hc
            · cases hc
          · intro res hres
            cases hres
        · cases approved with
          | false =>
            have hbody : invokeBody w input env =
                (.error ("Method \"" ++ (mapping.aliasName ++ "." ++ input.method) ++
                    "\" was denied by user."),
                  some polRes.policy, [.policyRead]) := by
              simp only [invokeBody, hmap, hpol, hpp, hprompt]
              rfl
            rw [hbody]
            refine ⟨?_, ?_, ?_⟩
            · intro e' he'
              simp at he'
              subst he'
              exact Or.inl rfl
            · intro ⟨e', he', hc⟩
              simp at he'
              subst he'
              rcases hc with hc | hc
              · simp [Eff.isParamFile] at hc
              · cases hc
            · intro res hres
              cases hres
          | true =>
            have hbody : invokeBody w input env =
                ((invokeAfterGate w input env).1, some polRes.policy,
                  .policyRead :: (invokeAfterGate w input env).2) := by
              simp [invokeBody, hmap, hpol, hpp, hprompt]
            rw [hbody]
            refine ⟨?_, ?_, ?_⟩
            · intro e' he'
              simp at he'
              rcases he' with rfl | h
              · exact Or.inl rfl
              · exact Or.inr (hshape e' h)
            · intro ⟨e', he', hc⟩
              simp at he'
              rcases he' with rfl | h
              · rcases hc with hc | hc
                · simp [Eff.isParamFile] at hc
                · cases hc
              · obtain ⟨m, hm, hsig⟩ := hgate ⟨e', h, hc⟩
                rw [hmap] at hm
                cases hm
                exact ⟨mapping, rfl, ⟨polRes, hpol, Or.inr ⟨hpp, hprompt⟩⟩, hsig⟩
            · intro res hres
              simp at hres
              obtain ⟨m, hm, hsig⟩ := hok res hres
              rw [hmap] at hm
              cases hm
              exact ⟨mapping, rfl, ⟨polRes, hpol, Or.inr ⟨hpp, hprompt⟩⟩, hsig⟩

/-- `appendAuditLine` writes exactly one record when a sink path
resolves and the append succeeds, and nothing otherwise. -/
theorem appendAuditLine_eq (env : Env) (sinkOk : Bool) (rec : AuditRecord) :
    appendAuditLine env sinkOk rec =
      if ((resolveAuditLogPath env).isSome && sinkOk) then [.auditAppend rec] else [] := by
  rw [appendAuditLine]
  cases h : resolveAuditLogPath env <;> cases sinkOk <;> simp [h]

/-- `invokeXeroMethod` is its `try` body followed by exactly one
`appendAuditLine` call whose record carries the raw parameter tokens
exactly in full-audit mode. -/
theorem invokeXeroMethod_decomp (w : World) (input : InvokeInput) (env : Env) :
    ∃ rec : AuditRecord,
      invokeXeroMethod w input env =
        ((invokeBody w input env).1,
          (invokeBody w input env).2.2 ++ appendAuditLine env w.auditSinkOk rec) ∧
      rec.request = (if fullAuditEnabled env then
        some (input.rawParams, uploadedFileNames input) else none) := by
  rcases hbody : invokeBody w input env with ⟨r, pa, effs⟩
  cases r with
  | ok printable =>
    refine ⟨{ auditBase env input with
        policy := pa, status := "success", responseStatus := some printable.status }, ?_, ?_⟩
    · simp [invokeXeroMethod, hbody]
    · simp [auditBase]
  | error e =>
    refine ⟨{ auditBase env input with
        policy := pa, status := "error", error := some e }, ?_, ?_⟩
    · simp [invokeXeroMethod, hbody]
    · simp [auditBase]

/-- C7 (amended): an invocation appends exactly one audit record when
an audit sink path is resolvable and the append succeeds, and zero
records otherwise; every record written carries the raw parameter
tokens (and uploaded-file parameter names) exactly when full-audit mode
is enabled, and only counts otherwise. -/
theorem invoke_audit_exactly_one_when_sink (w : World) (input : InvokeInput) (env : Env) :
    ((invokeXeroMethod w input env).2.countP Eff.isAuditAppend =
      if ((resolveAuditLogPath env).isSome && w.auditSinkOk) then 1 else 0) ∧
    (∀ rec, Eff.auditAppend rec ∈ (invokeXeroMethod w input env).2 →
      rec.request = (if fullAuditEnabled env then
        some (input.rawParams, uploadedFileNames input) else none)) := by
  obtain ⟨rec, hinv, hreq⟩ := invokeXeroMethod_decomp w input env
  have hbody0 : ∀ e ∈ (invokeBody w input env).2.2, Eff.isAuditAppend e = false := by
    intro e he
    rcases (invokeBody_gate_effs w input env).1 e he with h | h | h | h | h
    · subst h; rfl
    · subst h; rfl
    · cases e <;> first | rfl | simp [Eff.isParamFile] at h
    · subst h; rfl
    · subst h; rfl
  constructor
  · rw [hinv]
    simp only [List.countP_append]
    have h1 : (invokeBody w input env).2.2.countP Eff.isAuditAppend = 0 :=
      List.countP_eq_zero.mpr (fun e he => by simp [hbody0 e he])
    rw [h1, appendAuditLine_eq]
    cases hcond : ((resolveAuditLogPath env).isSome && w.auditSinkOk) <;>
      simp [Eff.isAuditAppend]
  · intro rec' hrec'
    rw [hinv] at hrec'
    simp only [List.mem_append] at hrec'
    rcases hrec' with h | h
    · have := hbody0 _ h
      simp [Eff.isAuditAppend] at this
    · rw [appendAuditLine_eq] at h
      by_cases hcond : ((resolveAuditLogPath env).isSome && w.auditSinkOk) = true
      · rw [if_pos hcond] at h
        simp at h
        subst h
        exact hreq
      · rw [if_neg hcond] at h
        simp at h

/-- C7 counterexample: with no audit path resolvable (no
`XERO_AUDIT_LOG_PATH`, `HOME` or `XDG_CONFIG_HOME`), an invocation
writes zero audit records, not exactly one as claimed. -/
theorem invoke_no_audit_without_sink :
    (invokeXeroMethod world0 inpUnknownApi env0).2.countP Eff.isAuditAppend = 0 := rfl

/-- Witness for C7 with a resolvable sink: exactly one record, without
raw tokens in default mode. -/
theorem invoke_audit_exactly_one_when_sink_witness :
    (invokeXeroMethod world0 inpUnknownApi envHome).2.countP Eff.isAuditAppend = 1 ∧
    recUnknownApi.request = none :=
  ⟨((invoke_audit_exactly_one_when_sink world0 inpUnknownApi envHome).1).trans (by rfl),
   ((invoke_audit_exactly_one_when_sink world0 inpUnknownApi envHome).2 recUnknownApi
      (by rw [show (invokeXeroMethod world0 inpUnknownApi envHome).2 =
          [Eff.auditAppend recUnknownApi] from rfl]
          exact List.mem_singleton.mpr rfl)).trans (by rfl)⟩

/-- C6: when the gate decides `ask` and either stream is not an
interactive terminal, the invocation fails with the
approval-unavailable configuration-guidance error — neither silently
approved nor silently denied — and no remote call is made. -/
theorem invoke_ask_noninteractive_fails_closed (w : World) (input : InvokeInput)
    (env : Env) (mapping : ApiMapping) (polRes : MethodPolicyResolution)
    (hmap : resolveApiMapping input.api = some mapping)
    (hpol : resolveMethodPolicy w.policy (mapping.aliasName ++ "." ++ input.method) = .ok polRes)
    (hask : polRes.policy = .ask)
    (htty : w.stdinIsTTY = false ∨ w.stdoutIsTTY = false) :
    (invokeXeroMethod w input env).1 =
      .error (approvalUnavailableMessage (mapping.aliasName ++ "." ++ input.method)) ∧
    Eff.remoteCall ∉ (invokeXeroMethod w input env).2 := by
  have hbody := invokeBody_ask_no_tty w input env mapping polRes hmap hpol hask htty
  obtain ⟨rec, hinv, _⟩ := invokeXeroMethod_decomp w input env
  rw [hinv]
  constructor
  · simp [hbody]
  · intro hmem
    simp only [hbody, List.mem_append] at hmem
    rcases hmem with h | h
    · simp at h
    · rw [appendAuditLine_eq] at h
      by_cases hcond : ((resolveAuditLogPath env).isSome && w.auditSinkOk) = true
      · rw [if_pos hcond] at h
        simp at h
      · rw [if_neg hcond] at h
        simp at h

/-- Witness for C6 at a concrete ask policy with no terminal. -/
theorem invoke_ask_noninteractive_fails_closed_witness :
    (invokeXeroMethod wAsk inpCreate env0).1 =
      .error (approvalUnavailableMessage "accounting.createAccount") ∧
    Eff.remoteCall ∉ (invokeXeroMethod wAsk inpCreate env0).2 :=
  invoke_ask_noninteractive_fails_closed wAsk inpCreate env0
    ⟨"accounting", "accountingApi", true⟩ ⟨.ask, true, some "/p/policy.json"⟩
    (by rfl) (by rfl) rfl (Or.inl rfl)

/-- C2: credential resolution (the only place credential decryption
happens) and parameter-driven file reads occur only when the alias
resolved, the policy gate passed (allow, or ask with approval) and the
catalog entry exists with `signatureFound = true`; a block decision,
and a missing signature, each abort the invocation with an error before
any credential read or parameter file access. -/
theorem invoke_fail_before_side_effects (w : World) (input : InvokeInput) (env : Env) :
    ((∃ e ∈ (invokeXeroMethod w input env).2,
        e.isParamFile = true ∨ e = .credentialResolve) →
      ∃ mapping, resolveApiMapping input.api = some mapping ∧
        policyGatePassed w (mapping.aliasName ++ "." ++ input.method) ∧
        signatureOk w.manifest mapping.property input.method) ∧
    (∀ mapping polRes, resolveApiMapping input.api = some mapping →
      resolveMethodPolicy w.policy (mapping.aliasName ++ "." ++ input.method) = .ok polRes →
      polRes.policy = .block →
      (∃ e, (invokeXeroMethod w input env).1 = .error e) ∧
      ∀ e ∈ (invokeXeroMethod w input env).2,
        e.isParamFile = false ∧ e ≠ .credentialResolve) ∧
    (∀ mapping, resolveApiMapping input.api = some mapping →
      ¬ signatureOk w.manifest mapping.property input.method →
      (∃ e, (invokeXeroMethod w input env).1 = .error e) ∧
      ∀ e ∈ (invokeXeroMethod w input env).2,
        e.isParamFile = false ∧ e ≠ .credentialResolve) := by
  obtain ⟨rec, hinv, _⟩ := invokeXeroMethod_decomp w input env
  obtain ⟨hshape, hgate, hok⟩ := invokeBody_gate_effs w input env
  have hauditmem : ∀ e ∈ appendAuditLine env w.auditSinkOk rec,
      e.isParamFile = false ∧ e ≠ .credentialResolve := by
    intro e he
    rw [appendAuditLine_eq] at he
    by_cases hcond : ((resolveAuditLogPath env).isSome && w.auditSinkOk) = true
    · rw [if_pos hcond] at he
      simp at he
      subst he
      exact ⟨rfl, by simp⟩
    · rw [if_neg hcond] at he
      simp at he
  refine ⟨?_, ?_, ?_⟩
  · intro ⟨e, he, hc⟩
    rw [hinv] at he
    simp only [List.mem_append] at he
    rcases he with h | h
    · exact hgate ⟨e, h, hc⟩
    · obtain ⟨hpf, hcred⟩ := hauditmem e h
      rcases hc with hc | hc
      · rw [hpf] at hc
        cases hc
      · exact absurd hc hcred
  · intro mapping polRes hmap hpol hblock
    obtain ⟨⟨e, he⟩, heffs⟩ := invokeBody_block w input env mapping polRes hmap hpol hblock
    constructor
    · exact ⟨e, by rw [hinv]; simpa using he⟩
    · intro e' he'
      rw [hinv] at he'
      simp only [List.mem_append] at he'
      rcases he' with h | h
      · rw [heffs] at h
        simp at h
        subst h
        exact ⟨rfl, by simp⟩
      · exact hauditmem e' h
  · intro mapping hmap hnosig
    constructor
    · rcases hb : (invokeBody w input env).1 with e | res
      · exact ⟨e, by rw [hinv]; simpa using hb⟩
      · obtain ⟨m, hm, _, hsig⟩ := hok res hb
        rw [hmap] at hm
        cases hm
        exact absurd hsig hnosig
    · intro e' he'
      rw [hinv] at he'
      simp only [List.mem_append] at he'
      rcases he' with h | h
      · have hno : ¬ (e'.isParamFile = true ∨ e' = .credentialResolve) := by
          intro hc
          obtain ⟨m, hm, _, hsig⟩ := hgate ⟨e', h, hc⟩
          rw [hmap] at hm
          cases hm
          exact hnosig hsig
        have h1 : ¬ e'.isParamFile = true := fun hpf => hno (Or.inl hpf)
        exact ⟨by simpa using h1, fun hcred => hno (Or.inr hcred)⟩
      · exact hauditmem e' h

/-- Witness for C2 at a concrete blocked invocation. -/
theorem invoke_fail_before_side_effects_witness :
    (∃ e, (invokeXeroMethod wBlock inpCreate env0).1 = .error e) ∧
    ∀ e ∈ (invokeXeroMethod wBlock inpCreate env0).2,
      e.isParamFile = false ∧ e ≠ .credentialResolve :=
  (invoke_fail_before_side_effects wBlock inpCreate env0).2.1
    ⟨"accounting", "accountingApi", true⟩ ⟨.block, true, some "/p/policy.json"⟩
    (by rfl) (by rfl) rfl
